import Mathlib

/-!
Verification development for the DOL language front end
(`packages/dol-wasm/src/lib.rs`): lexer, recursive-descent parser,
bracket validator, and the `compile_dol` / `validate_dol` entry points.

The Rust code is embedded shallowly:
* `String` source text becomes a `List Char` cursor with (line, column)
  tracking, exactly mirroring `Lexer::next_char`.
* Rust's Unicode character classes (`is_alphabetic`, `is_alphanumeric`,
  `is_numeric`) are modelled by Lean's ASCII classifiers `Char.isAlpha`,
  `Char.isAlphanum`, `Char.isDigit`; all inputs considered here are ASCII.
* The parser's `while` loops are modelled with an explicit fuel parameter
  returning `none` on exhaustion; a sufficiency theorem shows the fuel
  bound chosen at each call site is always enough, which is the formal
  content of the termination claim.
-/

set_option maxHeartbeats 1000000

/-- Token types for lexical analysis (Rust `enum Token`). -/
inductive Token where
  | Spirit | Gene | Trait
  | Fun | Sex
  | Has | Let | Const | Mut
  | If | Else | Match | Return
  | Exegesis
  | Constraint
  | Pub | Self_
  | Identifier (s : String)
  | StringLiteral (s : String)
  | NumberLiteral (s : String)
  | Version (s : String)
  | OpenBrace | CloseBrace | OpenParen | CloseParen | OpenBracket | CloseBracket
  | Colon | Arrow | FatArrow | Comma | Dot | Equals
  | Plus | Minus | Star | Slash | Pipe | PipeArrow
  | Comment (s : String)
  | Whitespace | Newline
  | Unknown (c : Char)
  | Eof
deriving Repr, DecidableEq

/-- Compilation error information (Rust `struct CompileError`). -/
structure CompileError where
  message : String
  line : Nat
  column : Nat
  error_type : String
deriving Repr, DecidableEq

/-- A parsed DOL node in the AST (Rust `enum DolNode`). -/
inductive DolNode where
  | Spirit (name : String) (version : Option String) (body : List DolNode) (line : Nat)
  | Gene (name : String) (body : List DolNode) (line : Nat)
  | Function (name : String) (params : List String) (return_type : Option String)
      (body : String) (effectful : Bool) (line : Nat)
  | Field (name : String) (field_type : String) (default_value : Option String) (line : Nat)
  | Constraint (name : String) (body : String) (line : Nat)
  | Exegesis (content : String) (line : Nat)
  | Comment (content : String) (line : Nat)
  | Unknown (content : String) (line : Nat)

/-- Metadata about the compilation (Rust `struct CompileMetadata`). -/
structure CompileMetadata where
  version : String
  spirit_count : Nat
  gene_count : Nat
  function_count : Nat
  field_count : Nat
  constraint_count : Nat
  source_lines : Nat
deriving Repr, DecidableEq

/-- Result of DOL compilation/parsing (Rust `struct CompileResult`). -/
structure CompileResult where
  success : Bool
  ast : List DolNode
  errors : List CompileError
  warnings : List String
  metadata : CompileMetadata

/-- Lexer cursor state: remaining characters plus (line, column), as held by
Rust `struct Lexer` (`chars` iterator, `line`, `column`). -/
structure LexState where
  chars : List Char
  line : Nat
  column : Nat
deriving Repr, DecidableEq

/-- Position update performed by `Lexer::next_char` when consuming `ch`:
newline increments the line and resets the column, anything else
increments the column. -/
def adv_pos (ch : Char) (l c : Nat) : Nat × Nat :=
  if ch = '\n' then (l + 1, 1) else (l, c + 1)

/-- `Lexer::skip_whitespace`: consume spaces, tabs and carriage returns. -/
def skip_ws_aux : List Char → Nat → Nat → LexState
  | [], l, c => ⟨[], l, c⟩
  | ch :: rest, l, c =>
    if ch = ' ' ∨ ch = '\t' ∨ ch = '\r' then skip_ws_aux rest l (c + 1)
    else ⟨ch :: rest, l, c⟩

def skip_ws (ls : LexState) : LexState := skip_ws_aux ls.chars ls.line ls.column

/-- `Lexer::read_identifier` after the first character: consume a maximal
alphanumeric/underscore run. -/
def read_ident_rest_aux : List Char → Nat → Nat → String → String × LexState
  | [], l, c, acc => (acc, ⟨[], l, c⟩)
  | ch :: rest, l, c, acc =>
    if ch.isAlphanum ∨ ch = '_' then read_ident_rest_aux rest l (c + 1) (acc.push ch)
    else (acc, ⟨ch :: rest, l, c⟩)

def read_ident_rest (ls : LexState) (acc : String) : String × LexState :=
  read_ident_rest_aux ls.chars ls.line ls.column acc

/-- `Lexer::read_string`: consume until an unescaped matching quote;
a backslash takes the following character verbatim. -/
def read_string_aux (quote : Char) : List Char → Nat → Nat → String → String × LexState
  | [], l, c, acc => (acc, ⟨[], l, c⟩)
  | ch :: rest, l, c, acc =>
    if ch = quote then (acc, ⟨rest, (adv_pos ch l c).1, (adv_pos ch l c).2⟩)
    else if ch = '\\' then
      match rest with
      | [] => (acc, ⟨[], (adv_pos ch l c).1, (adv_pos ch l c).2⟩)
      | e :: rest2 =>
        read_string_aux quote rest2 (adv_pos e (adv_pos ch l c).1 (adv_pos ch l c).2).1
          (adv_pos e (adv_pos ch l c).1 (adv_pos ch l c).2).2 (acc.push e)
    else read_string_aux quote rest (adv_pos ch l c).1 (adv_pos ch l c).2 (acc.push ch)

def read_string (quote : Char) (ls : LexState) (acc : String) : String × LexState :=
  read_string_aux quote ls.chars ls.line ls.column acc

/-- `Lexer::read_line_comment`: consume up to, not including, the newline. -/
def read_line_comment_aux : List Char → Nat → Nat → String → String × LexState
  | [], l, c, acc => (acc, ⟨[], l, c⟩)
  | ch :: rest, l, c, acc =>
    if ch = '\n' then (acc, ⟨ch :: rest, l, c⟩)
    else read_line_comment_aux rest l (c + 1) (acc.push ch)

def read_line_comment (ls : LexState) (acc : String) : String × LexState :=
  read_line_comment_aux ls.chars ls.line ls.column acc

/-- `Lexer::read_block_comment`: consume until a `*` `/` pair, dropping the
trailing `*` from the captured content. -/
def read_block_comment_aux : List Char → Nat → Nat → String → Char → String × LexState
  | [], l, c, acc, _ => (acc, ⟨[], l, c⟩)
  | ch :: rest, l, c, acc, prev =>
    if prev = '*' ∧ ch = '/' then
      (acc.dropRight 1, ⟨rest, (adv_pos ch l c).1, (adv_pos ch l c).2⟩)
    else read_block_comment_aux rest (adv_pos ch l c).1 (adv_pos ch l c).2 (acc.push ch) ch

def read_block_comment (ls : LexState) (acc : String) (prev : Char) : String × LexState :=
  read_block_comment_aux ls.chars ls.line ls.column acc prev

/-- The digits-and-dots run shared by Rust's version-literal loop (after `@`)
and its numeric-literal loop: consume numeric characters and `.` greedily. -/
def read_digits_dots_aux : List Char → Nat → Nat → String → String × LexState
  | [], l, c, acc => (acc, ⟨[], l, c⟩)
  | ch :: rest, l, c, acc =>
    if ch.isDigit ∨ ch = '.' then read_digits_dots_aux rest l (c + 1) (acc.push ch)
    else (acc, ⟨ch :: rest, l, c⟩)

def read_digits_dots (ls : LexState) (acc : String) : String × LexState :=
  read_digits_dots_aux ls.chars ls.line ls.column acc

/-- The keyword table of `Lexer::next_token` (the `match ident.as_str()`
at lines 340-366 of `lib.rs`). -/
def keyword_token (ident : String) : Token :=
  if ident = "spirit" then Token.Spirit
  else if ident = "gene" then Token.Gene
  else if ident = "trait" then Token.Trait
  else if ident = "fun" then Token.Fun
  else if ident = "sex" then Token.Sex
  else if ident = "has" then Token.Has
  else if ident = "let" then Token.Let
  else if ident = "const" then Token.Const
  else if ident = "mut" then Token.Mut
  else if ident = "if" then Token.If
  else if ident = "else" then Token.Else
  else if ident = "match" then Token.Match
  else if ident = "return" then Token.Return
  else if ident = "exegesis" then Token.Exegesis
  else if ident = "constraint" then Token.Constraint
  else if ident = "pub" then Token.Pub
  else if ident = "self" then Token.Self_
  else Token.Identifier ident

/-- Dispatch of `Lexer::next_token` after whitespace has been skipped;
returns the token, its start position, and the remaining cursor. -/
def next_token_core : LexState → Token × Nat × Nat × LexState
  | ⟨[], l, c⟩ => (Token.Eof, l, c, ⟨[], l, c⟩)
  | ⟨ch :: rest, l, c⟩ =>
    if ch = '\n' then (Token.Newline, l, c, ⟨rest, l + 1, 1⟩)
    else if ch = '\x7b' then (Token.OpenBrace, l, c, ⟨rest, l, c + 1⟩)
    else if ch = '\x7d' then (Token.CloseBrace, l, c, ⟨rest, l, c + 1⟩)
    else if ch = '(' then (Token.OpenParen, l, c, ⟨rest, l, c + 1⟩)
    else if ch = ')' then (Token.CloseParen, l, c, ⟨rest, l, c + 1⟩)
    else if ch = '[' then (Token.OpenBracket, l, c, ⟨rest, l, c + 1⟩)
    else if ch = ']' then (Token.CloseBracket, l, c, ⟨rest, l, c + 1⟩)
    else if ch = ':' then (Token.Colon, l, c, ⟨rest, l, c + 1⟩)
    else if ch = ',' then (Token.Comma, l, c, ⟨rest, l, c + 1⟩)
    else if ch = '.' then (Token.Dot, l, c, ⟨rest, l, c + 1⟩)
    else if ch = '+' then (Token.Plus, l, c, ⟨rest, l, c + 1⟩)
    else if ch = '*' then (Token.Star, l, c, ⟨rest, l, c + 1⟩)
    else if ch = '-' then
      match rest with
      | '>' :: rest2 => (Token.Arrow, l, c, ⟨rest2, l, c + 2⟩)
      | _ => (Token.Minus, l, c, ⟨rest, l, c + 1⟩)
    else if ch = '=' then
      match rest with
      | '>' :: rest2 => (Token.FatArrow, l, c, ⟨rest2, l, c + 2⟩)
      | _ => (Token.Equals, l, c, ⟨rest, l, c + 1⟩)
    else if ch = '|' then
      match rest with
      | '>' :: rest2 => (Token.PipeArrow, l, c, ⟨rest2, l, c + 2⟩)
      | _ => (Token.Pipe, l, c, ⟨rest, l, c + 1⟩)
    else if ch = '@' then
      let r := read_digits_dots ⟨rest, l, c + 1⟩ ""
      (Token.Version r.1, l, c, r.2)
    else if ch = '/' then
      match rest with
      | '/' :: rest2 =>
        let r := read_line_comment ⟨rest2, l, c + 2⟩ ""
        (Token.Comment r.1, l, c, r.2)
      | '*' :: rest2 =>
        let r := read_block_comment ⟨rest2, l, c + 2⟩ "" ' '
        (Token.Comment r.1, l, c, r.2)
      | _ => (Token.Slash, l, c, ⟨rest, l, c + 1⟩)
    else if ch = '"' then
      let r := read_string '"' ⟨rest, l, c + 1⟩ ""
      (Token.StringLiteral r.1, l, c, r.2)
    else if ch = '\'' then
      let r := read_string '\'' ⟨rest, l, c + 1⟩ ""
      (Token.StringLiteral r.1, l, c, r.2)
    else if ch.isAlpha ∨ ch = '_' then
      let r := read_ident_rest ⟨rest, l, c + 1⟩ (String.singleton ch)
      (keyword_token r.1, l, c, r.2)
    else if ch.isDigit then
      let r := read_digits_dots ⟨rest, l, c + 1⟩ (String.singleton ch)
      (Token.NumberLiteral r.1, l, c, r.2)
    else (Token.Unknown ch, l, c, ⟨rest, l, c + 1⟩)

/-- `Lexer::next_token`: skip horizontal whitespace, then dispatch. -/
def next_token (ls : LexState) : Token × Nat × Nat × LexState :=
  next_token_core (skip_ws ls)



/-! ### Lexer progress lemmas

`next_token` never grows the remaining input, and consumes at least one
character whenever it returns something other than `Eof`. -/

theorem skip_ws_aux_le (cs : List Char) :
    ∀ l c, (skip_ws_aux cs l c).chars.length ≤ cs.length := by
  induction cs with
  | nil => intro l c; simp [skip_ws_aux]
  | cons ch rest ih =>
    intro l c
    by_cases h : ch = ' ' ∨ ch = '\t' ∨ ch = '\r'
    · simp only [skip_ws_aux]
      rw [if_pos h]
      exact le_trans (ih _ _) (by simp)
    · simp only [skip_ws_aux]
      rw [if_neg h]

theorem skip_ws_le (ls : LexState) : (skip_ws ls).chars.length ≤ ls.chars.length :=
  skip_ws_aux_le ls.chars ls.line ls.column

theorem read_ident_rest_aux_le (cs : List Char) :
    ∀ l c acc, (read_ident_rest_aux cs l c acc).2.chars.length ≤ cs.length := by
  induction cs with
  | nil => intro l c acc; simp [read_ident_rest_aux]
  | cons ch rest ih =>
    intro l c acc
    by_cases h : ch.isAlphanum = true ∨ ch = '_'
    · simp only [read_ident_rest_aux]
      rw [if_pos h]
      exact le_trans (ih _ _ _) (by simp)
    · simp only [read_ident_rest_aux]
      rw [if_neg h]

theorem read_ident_rest_le (ls : LexState) (acc : String) :
    (read_ident_rest ls acc).2.chars.length ≤ ls.chars.length :=
  read_ident_rest_aux_le ls.chars ls.line ls.column acc

theorem read_digits_dots_aux_le (cs : List Char) :
    ∀ l c acc, (read_digits_dots_aux cs l c acc).2.chars.length ≤ cs.length := by
  induction cs with
  | nil => intro l c acc; simp [read_digits_dots_aux]
  | cons ch rest ih =>
    intro l c acc
    by_cases h : ch.isDigit = true ∨ ch = '.'
    · simp only [read_digits_dots_aux]
      rw [if_pos h]
      exact le_trans (ih _ _ _) (by simp)
    · simp only [read_digits_dots_aux]
      rw [if_neg h]

theorem read_digits_dots_le (ls : LexState) (acc : String) :
    (read_digits_dots ls acc).2.chars.length ≤ ls.chars.length :=
  read_digits_dots_aux_le ls.chars ls.line ls.column acc

theorem read_line_comment_aux_le (cs : List Char) :
    ∀ l c acc, (read_line_comment_aux cs l c acc).2.chars.length ≤ cs.length := by
  induction cs with
  | nil => intro l c acc; simp [read_line_comment_aux]
  | cons ch rest ih =>
    intro l c acc
    by_cases h : ch = '\n'
    · simp only [read_line_comment_aux]
      rw [if_pos h]
    · simp only [read_line_comment_aux]
      rw [if_neg h]
      exact le_trans (ih _ _ _) (by simp)

theorem read_line_comment_le (ls : LexState) (acc : String) :
    (read_line_comment ls acc).2.chars.length ≤ ls.chars.length :=
  read_line_comment_aux_le ls.chars ls.line ls.column acc

theorem read_block_comment_aux_le (cs : List Char) :
    ∀ l c acc prev, (read_block_comment_aux cs l c acc prev).2.chars.length ≤ cs.length := by
  induction cs with
  | nil => intro l c acc prev; simp [read_block_comment_aux]
  | cons ch rest ih =>
    intro l c acc prev
    by_cases h : prev = '*' ∧ ch = '/'
    · simp only [read_block_comment_aux]
      rw [if_pos h]
      simp
    · simp only [read_block_comment_aux]
      rw [if_neg h]
      exact le_trans (ih _ _ _ _) (by simp)

theorem read_block_comment_le (ls : LexState) (acc : String) (prev : Char) :
    (read_block_comment ls acc prev).2.chars.length ≤ ls.chars.length :=
  read_block_comment_aux_le ls.chars ls.line ls.column acc prev

theorem read_string_aux_len_le (quote : Char) :
    ∀ (n : Nat) (cs : List Char), cs.length ≤ n → ∀ l c acc,
      (read_string_aux quote cs l c acc).2.chars.length ≤ cs.length := by
  intro n
  induction n with
  | zero =>
    intro cs hcs l c acc
    cases cs with
    | nil => simp [read_string_aux]
    | cons ch rest => simp at hcs
  | succ k ih =>
    intro cs hcs l c acc
    cases cs with
    | nil => simp [read_string_aux]
    | cons ch rest =>
      cases rest with
      | nil =>
        by_cases h : ch = quote
        · rw [read_string_aux.eq_2, if_pos h]
          simp
        · by_cases h2 : ch = '\\'
          · rw [read_string_aux.eq_2, if_neg h, if_pos h2]
            simp
          · rw [read_string_aux.eq_2, if_neg h, if_neg h2]
            simp [read_string_aux]
      | cons e rest2 =>
        by_cases h : ch = quote
        · rw [read_string_aux.eq_3, if_pos h]
          simp
        · by_cases h2 : ch = '\\'
          · rw [read_string_aux.eq_3, if_neg h, if_pos h2]
            have hr := ih rest2 (by simp at hcs ⊢; omega)
              (adv_pos e (adv_pos ch l c).1 (adv_pos ch l c).2).1
              (adv_pos e (adv_pos ch l c).1 (adv_pos ch l c).2).2 (acc.push e)
            simp only [List.length_cons]
            omega
          · rw [read_string_aux.eq_3, if_neg h, if_neg h2]
            have hr := ih (e :: rest2) (by simp at hcs ⊢; omega)
              (adv_pos ch l c).1 (adv_pos ch l c).2 (acc.push ch)
            simp only [List.length_cons] at hr ⊢
            omega

theorem read_string_aux_le (quote : Char) (cs : List Char) (l c : Nat) (acc : String) :
    (read_string_aux quote cs l c acc).2.chars.length ≤ cs.length :=
  read_string_aux_len_le quote cs.length cs (le_refl _) l c acc

theorem read_string_le (quote : Char) (ls : LexState) (acc : String) :
    (read_string quote ls acc).2.chars.length ≤ ls.chars.length :=
  read_string_aux_le quote ls.chars ls.line ls.column acc

theorem keyword_token_ne_eof (s : String) : ¬keyword_token s = Token.Eof := by
  intro hc
  unfold keyword_token at hc
  by_cases h1 : s = "spirit"
  · rw [if_pos h1] at hc; exact Token.noConfusion hc
  rw [if_neg h1] at hc
  by_cases h2 : s = "gene"
  · rw [if_pos h2] at hc; exact Token.noConfusion hc
  rw [if_neg h2] at hc
  by_cases h3 : s = "trait"
  · rw [if_pos h3] at hc; exact Token.noConfusion hc
  rw [if_neg h3] at hc
  by_cases h4 : s = "fun"
  · rw [if_pos h4] at hc; exact Token.noConfusion hc
  rw [if_neg h4] at hc
  by_cases h5 : s = "sex"
  · rw [if_pos h5] at hc; exact Token.noConfusion hc
  rw [if_neg h5] at hc
  by_cases h6 : s = "has"
  · rw [if_pos h6] at hc; exact Token.noConfusion hc
  rw [if_neg h6] at hc
  by_cases h7 : s = "let"
  · rw [if_pos h7] at hc; exact Token.noConfusion hc
  rw [if_neg h7] at hc
  by_cases h8 : s = "const"
  · rw [if_pos h8] at hc; exact Token.noConfusion hc
  rw [if_neg h8] at hc
  by_cases h9 : s = "mut"
  · rw [if_pos h9] at hc; exact Token.noConfusion hc
  rw [if_neg h9] at hc
  by_cases h10 : s = "if"
  · rw [if_pos h10] at hc; exact Token.noConfusion hc
  rw [if_neg h10] at hc
  by_cases h11 : s = "else"
  · rw [if_pos h11] at hc; exact Token.noConfusion hc
  rw [if_neg h11] at hc
  by_cases h12 : s = "match"
  · rw [if_pos h12] at hc; exact Token.noConfusion hc
  rw [if_neg h12] at hc
  by_cases h13 : s = "return"
  · rw [if_pos h13] at hc; exact Token.noConfusion hc
  rw [if_neg h13] at hc
  by_cases h14 : s = "exegesis"
  · rw [if_pos h14] at hc; exact Token.noConfusion hc
  rw [if_neg h14] at hc
  by_cases h15 : s = "constraint"
  · rw [if_pos h15] at hc; exact Token.noConfusion hc
  rw [if_neg h15] at hc
  by_cases h16 : s = "pub"
  · rw [if_pos h16] at hc; exact Token.noConfusion hc
  rw [if_neg h16] at hc
  by_cases h17 : s = "self"
  · rw [if_pos h17] at hc; exact Token.noConfusion hc
  rw [if_neg h17] at hc
  exact Token.noConfusion hc

theorem tuple_progress_aux {T tok : Token} {a b l' c' : Nat} {ls0 ls' : LexState} {n : Nat}
    (h : (T, a, b, ls0) = (tok, l', c', ls'))
    (hT : ¬T = Token.Eof) (hlen : ls0.chars.length ≤ n) :
    ls'.chars.length + (if tok = Token.Eof then 0 else 1) ≤ n + 1 := by
  simp only [Prod.mk.injEq] at h
  obtain ⟨rfl, rfl, rfl, rfl⟩ := h
  rw [if_neg hT]
  omega

theorem next_token_core_progress {ls : LexState} {tok : Token} {l' c' : Nat} {ls' : LexState}
    (h : next_token_core ls = (tok, l', c', ls')) :
    ls'.chars.length + (if tok = Token.Eof then 0 else 1) ≤ ls.chars.length := by
  obtain ⟨chars, l, c⟩ := ls
  cases chars with
  | nil =>
    simp only [next_token_core, Prod.mk.injEq] at h
    obtain ⟨rfl, rfl, rfl, rfl⟩ := h
    simp
  | cons ch rest =>
    simp only [next_token_core] at h
    show _ ≤ (ch :: rest).length
    simp only [List.length_cons]
    by_cases h1 : ch = '\n'
    · rw [if_pos h1] at h; exact tuple_progress_aux h (fun hc => Token.noConfusion hc) (le_refl _)
    rw [if_neg h1] at h
    by_cases h2 : ch = '\x7b'
    · rw [if_pos h2] at h; exact tuple_progress_aux h (fun hc => Token.noConfusion hc) (le_refl _)
    rw [if_neg h2] at h
    by_cases h3 : ch = '\x7d'
    · rw [if_pos h3] at h; exact tuple_progress_aux h (fun hc => Token.noConfusion hc) (le_refl _)
    rw [if_neg h3] at h
    by_cases h4 : ch = '('
    · rw [if_pos h4] at h; exact tuple_progress_aux h (fun hc => Token.noConfusion hc) (le_refl _)
    rw [if_neg h4] at h
    by_cases h5 : ch = ')'
    · rw [if_pos h5] at h; exact tuple_progress_aux h (fun hc => Token.noConfusion hc) (le_refl _)
    rw [if_neg h5] at h
    by_cases h6 : ch = '['
    · rw [if_pos h6] at h; exact tuple_progress_aux h (fun hc => Token.noConfusion hc) (le_refl _)
    rw [if_neg h6] at h
    by_cases h7 : ch = ']'
    · rw [if_pos h7] at h; exact tuple_progress_aux h (fun hc => Token.noConfusion hc) (le_refl _)
    rw [if_neg h7] at h
    by_cases h8 : ch = ':'
    · rw [if_pos h8] at h; exact tuple_progress_aux h (fun hc => Token.noConfusion hc) (le_refl _)
    rw [if_neg h8] at h
    by_cases h9 : ch = ','
    · rw [if_pos h9] at h; exact tuple_progress_aux h (fun hc => Token.noConfusion hc) (le_refl _)
    rw [if_neg h9] at h
    by_cases h10 : ch = '.'
    · rw [if_pos h10] at h; exact tuple_progress_aux h (fun hc => Token.noConfusion hc) (le_refl _)
    rw [if_neg h10] at h
    by_cases h11 : ch = '+'
    · rw [if_pos h11] at h; exact tuple_progress_aux h (fun hc => Token.noConfusion hc) (le_refl _)
    rw [if_neg h11] at h
    by_cases h12 : ch = '*'
    · rw [if_pos h12] at h; exact tuple_progress_aux h (fun hc => Token.noConfusion hc) (le_refl _)
    rw [if_neg h12] at h
    by_cases h13 : ch = '-'
    · rw [if_pos h13] at h
      split at h
      · exact tuple_progress_aux h (fun hc => Token.noConfusion hc) (Nat.le_succ _)
      · exact tuple_progress_aux h (fun hc => Token.noConfusion hc) (le_refl _)
    rw [if_neg h13] at h
    by_cases h14 : ch = '='
    · rw [if_pos h14] at h
      split at h
      · exact tuple_progress_aux h (fun hc => Token.noConfusion hc) (Nat.le_succ _)
      · exact tuple_progress_aux h (fun hc => Token.noConfusion hc) (le_refl _)
    rw [if_neg h14] at h
    by_cases h15 : ch = '|'
    · rw [if_pos h15] at h
      split at h
      · exact tuple_progress_aux h (fun hc => Token.noConfusion hc) (Nat.le_succ _)
      · exact tuple_progress_aux h (fun hc => Token.noConfusion hc) (le_refl _)
    rw [if_neg h15] at h
    by_cases h16 : ch = '@'
    · rw [if_pos h16] at h
      exact tuple_progress_aux h (fun hc => Token.noConfusion hc) (read_digits_dots_le _ _)
    rw [if_neg h16] at h
    by_cases h17 : ch = '/'
    · rw [if_pos h17] at h
      split at h
      · exact tuple_progress_aux h (fun hc => Token.noConfusion hc)
          (le_trans (read_line_comment_le _ _) (Nat.le_succ _))
      · exact tuple_progress_aux h (fun hc => Token.noConfusion hc)
          (le_trans (read_block_comment_le _ _ _) (Nat.le_succ _))
      · exact tuple_progress_aux h (fun hc => Token.noConfusion hc) (le_refl _)
    rw [if_neg h17] at h
    by_cases h18 : ch = '"'
    · rw [if_pos h18] at h
      exact tuple_progress_aux h (fun hc => Token.noConfusion hc) (read_string_le _ _ _)
    rw [if_neg h18] at h
    by_cases h19 : ch = '\''
    · rw [if_pos h19] at h
      exact tuple_progress_aux h (fun hc => Token.noConfusion hc) (read_string_le _ _ _)
    rw [if_neg h19] at h
    by_cases h20 : ch.isAlpha = true ∨ ch = '_'
    · rw [if_pos h20] at h
      exact tuple_progress_aux h (keyword_token_ne_eof _) (read_ident_rest_le _ _)
    rw [if_neg h20] at h
    by_cases h21 : ch.isDigit = true
    · rw [if_pos h21] at h
      exact tuple_progress_aux h (fun hc => Token.noConfusion hc) (read_digits_dots_le _ _)
    rw [if_neg h21] at h
    exact tuple_progress_aux h (fun hc => Token.noConfusion hc) (le_refl _)

theorem next_token_progress (ls : LexState) :
    (next_token ls).2.2.2.chars.length
      + (if (next_token ls).1 = Token.Eof then 0 else 1) ≤ ls.chars.length := by
  have h : next_token_core (skip_ws ls)
      = ((next_token ls).1, (next_token ls).2.1, (next_token ls).2.2.1, (next_token ls).2.2.2) :=
    rfl
  have h1 := next_token_core_progress h
  have h2 := skip_ws_le ls
  omega

/-! ### Parser state and primitives (Rust `struct Parser`) -/

/-- Parser state: the lexer cursor, the one-token lookahead with its
position, and the accumulated diagnostics (Rust `Parser` fields). -/
structure PState where
  lex : LexState
  tok : Token
  tokLine : Nat
  tokCol : Nat
  errors : List CompileError
  warnings : List String

/-- `Parser::advance`: pull the next token from the lexer. -/
def advance (st : PState) : PState :=
  let r := next_token st.lex
  { st with lex := r.2.2.2, tok := r.1, tokLine := r.2.1, tokCol := r.2.2.1 }

/-- `Parser::add_error`: append a `CompileError` at the current token. -/
def push_error (msg et : String) (st : PState) : PState :=
  { st with errors := st.errors ++ [⟨msg, st.tokLine, st.tokCol, et⟩] }

/-- Append a warning string (Rust `self.warnings.push(...)`). -/
def push_warning (w : String) (st : PState) : PState :=
  { st with warnings := st.warnings ++ [w] }

/-- Parser progress measure: remaining characters plus one for a pending
non-`Eof` lookahead token.  Every `advance` on a non-`Eof` token strictly
decreases it. -/
def pm (st : PState) : Nat :=
  st.lex.chars.length + (if st.tok = Token.Eof then 0 else 1)

theorem pm_advance_le_chars (st : PState) : pm (advance st) ≤ st.lex.chars.length := by
  have h := next_token_progress st.lex
  simp only [pm, advance]
  omega

theorem pm_advance_le (st : PState) : pm (advance st) ≤ pm st := by
  have h := pm_advance_le_chars st
  have h2 : st.lex.chars.length ≤ pm st := by simp only [pm]; split <;> omega
  omega

theorem pm_advance_lt (st : PState) (h : ¬st.tok = Token.Eof) : pm (advance st) < pm st := by
  have h1 := pm_advance_le_chars st
  have h2 : pm st = st.lex.chars.length + 1 := by simp only [pm, if_neg h]
  omega

theorem pm_push_error (msg et : String) (st : PState) : pm (push_error msg et st) = pm st := rfl

theorem pm_push_warning (w : String) (st : PState) : pm (push_warning w st) = pm st := rfl

/-- `Parser::skip_newlines`, fueled: each iteration consumes one `Newline`
token.  The wrapper passes `pm st + 1`, which `skip_newlines_not_newline`
shows is always enough, so the loop is the Rust `while` loop. -/
def skip_newlines_loop : Nat → PState → PState
  | 0, st => st
  | fuel + 1, st =>
    if st.tok = Token.Newline then skip_newlines_loop fuel (advance st) else st

def skip_newlines (st : PState) : PState := skip_newlines_loop (pm st + 1) st

theorem pm_skip_newlines_loop_le : ∀ fuel st, pm (skip_newlines_loop fuel st) ≤ pm st := by
  intro fuel
  induction fuel with
  | zero => intro st; exact le_refl _
  | succ n ih =>
    intro st
    rw [skip_newlines_loop]
    split
    · exact le_trans (ih _) (pm_advance_le st)
    · exact le_refl _

theorem pm_skip_newlines_le (st : PState) : pm (skip_newlines st) ≤ pm st :=
  pm_skip_newlines_loop_le _ st

theorem skip_newlines_loop_not_newline : ∀ fuel st, pm st < fuel →
    ¬(skip_newlines_loop fuel st).tok = Token.Newline := by
  intro fuel
  induction fuel with
  | zero => intro st h; omega
  | succ n ih =>
    intro st h
    rw [skip_newlines_loop]
    by_cases hnl : st.tok = Token.Newline
    · rw [if_pos hnl]
      have hlt := pm_advance_lt st (by rw [hnl]; exact fun hc => Token.noConfusion hc)
      exact ih (advance st) (by omega)
    · rw [if_neg hnl]
      exact hnl

/-- The fuel `pm st + 1` always suffices: the result of `skip_newlines` is
never a `Newline` token, exactly as for the Rust `while` loop. -/
theorem skip_newlines_not_newline (st : PState) :
    ¬(skip_newlines st).tok = Token.Newline :=
  skip_newlines_loop_not_newline (pm st + 1) st (by omega)

/-- If `skip_newlines` moves at all, the measure strictly drops. -/
theorem pm_skip_newlines_cases (st : PState) :
    skip_newlines st = st ∨ pm (skip_newlines st) < pm st := by
  by_cases h : st.tok = Token.Newline
  · right
    show pm (skip_newlines_loop (pm st + 1) st) < pm st
    rw [skip_newlines_loop, if_pos h]
    exact lt_of_le_of_lt (pm_skip_newlines_loop_le _ _)
      (pm_advance_lt st (by rw [h]; exact fun hc => Token.noConfusion hc))
  · left
    show skip_newlines_loop (pm st + 1) st = st
    rw [skip_newlines_loop, if_neg h]

/-- `Parser::expect_identifier`: take an identifier and advance, or record
one "Expected identifier" `SyntaxError` without advancing. -/
def expect_identifier (st : PState) : Option String × PState :=
  match st.tok with
  | Token.Identifier name => (some name, advance st)
  | _ => (none, push_error "Expected identifier" "SyntaxError" st)

theorem pm_expect_identifier_le (st : PState) : pm (expect_identifier st).2 ≤ pm st := by
  unfold expect_identifier
  split
  · exact pm_advance_le st
  · rw [pm_push_error]

/-! ### Parser: declaration and body parsing

Rust `while` loops become fueled loop functions returning `none` on fuel
exhaustion; every call site passes `pm st + 1`, shown sufficient below. -/

/-- Rust `str::trim` on the body strings (ASCII whitespace). -/
def rust_trim (s : String) : String :=
  ⟨((s.data.dropWhile Char.isWhitespace).reverse.dropWhile Char.isWhitespace).reverse⟩

/-- Rust `str::lines().count()` used for `source_lines` metadata. -/
def rust_lines_count (s : String) : Nat :=
  s.data.count '\n' + (if s.data ≠ [] ∧ s.data.getLast? ≠ some '\n' then 1 else 0)

/-- One iteration of the function-body re-serialization loop of
`parse_function` (lines 639-669): depth bookkeeping plus the per-token
text re-emitted into the body string. -/
def fn_body_step (depth : Nat) (tok : Token) (acc : String) : Nat × String :=
  match tok with
  | Token.OpenBrace => (depth + 1, acc.push '\x7b')
  | Token.CloseBrace => (depth - 1, if depth - 1 > 0 then acc.push '\x7d' else acc)
  | Token.Identifier s => (depth, acc ++ s)
  | Token.Self_ => (depth, acc ++ "self")
  | Token.Return => (depth, acc ++ "return")
  | Token.StringLiteral s => (depth, acc ++ "\"" ++ s ++ "\"")
  | Token.NumberLiteral n => (depth, acc ++ n)
  | Token.Dot => (depth, acc.push '.')
  | Token.Plus => (depth, acc.push '+')
  | Token.Minus => (depth, acc.push '-')
  | Token.Star => (depth, acc.push '*')
  | Token.Slash => (depth, acc.push '/')
  | Token.Equals => (depth, acc.push '=')
  | Token.Newline => (depth, acc.push '\n')
  | _ => (depth, acc.push ' ')

/-- One iteration of the constraint-body loop of `parse_constraint`
(lines 755-774). -/
def constraint_body_step (depth : Nat) (tok : Token) (acc : String) : Nat × String :=
  match tok with
  | Token.OpenBrace => (depth + 1, acc.push '\x7b')
  | Token.CloseBrace => (depth - 1, if depth - 1 > 0 then acc.push '\x7d' else acc)
  | Token.Identifier s => (depth, acc ++ s)
  | Token.Self_ => (depth, acc ++ "self")
  | Token.Dot => (depth, acc.push '.')
  | Token.Newline => (depth, acc.push '\n')
  | _ => (depth, acc.push ' ')

/-- One iteration of the exegesis-content loop of `parse_exegesis`
(lines 794-819), inserting a separating space between identifier-like
tokens. -/
def exegesis_step (depth : Nat) (tok : Token) (acc : String) : Nat × String :=
  match tok with
  | Token.OpenBrace => (depth + 1, acc.push '\x7b')
  | Token.CloseBrace => (depth - 1, if depth - 1 > 0 then acc.push '\x7d' else acc)
  | Token.Identifier s =>
    if ¬acc.isEmpty ∧ acc.data.getLast? ≠ some '\n' ∧ acc.data.getLast? ≠ some ' '
    then (depth, (acc.push ' ') ++ s)
    else (depth, acc ++ s)
  | Token.Newline => (depth, acc.push '\n')
  | _ => (depth, acc.push ' ')

/-- The shared `while brace_depth > 0 && tok != Eof` body-collection loop of
`parse_function` / `parse_constraint` / `parse_exegesis`, parameterized by
the per-token step. -/
def brace_body_loop (step : Nat → Token → String → Nat × String) :
    Nat → Nat → PState → String → Option (PState × String)
  | 0, _, _, _ => none
  | fuel + 1, depth, st, acc =>
    if depth = 0 ∨ st.tok = Token.Eof then some (st, acc)
    else
      let s := step depth st.tok acc
      brace_body_loop step fuel s.1 (advance st) s.2

/-- The body-reading part of `parse_function` (lines 635-671): if the
current token is `{`, consume it and re-serialize until the matching
close brace or `Eof`; otherwise the body is the empty string. -/
def read_fn_body (st : PState) : Option (String × PState) :=
  if st.tok = Token.OpenBrace then
    (brace_body_loop fn_body_step (pm (advance st) + 1) 1 (advance st) "").map
      (fun r => (r.2, r.1))
  else some ("", st)

/-- The body-reading part of `parse_constraint` (lines 751-775). -/
def read_constraint_body (st : PState) : Option (String × PState) :=
  if st.tok = Token.OpenBrace then
    (brace_body_loop constraint_body_step (pm (advance st) + 1) 1 (advance st) "").map
      (fun r => (r.2, r.1))
  else some ("", st)

/-- The content-reading part of `parse_exegesis` (lines 790-820). -/
def read_exegesis_content (st : PState) : Option (String × PState) :=
  if st.tok = Token.OpenBrace then
    (brace_body_loop exegesis_step (pm (advance st) + 1) 1 (advance st) "").map
      (fun r => (r.2, r.1))
  else some ("", st)

/-- The optional `: Type` annotation skip inside the parameter loop
(lines 592-599): the type name is consumed and discarded. -/
def param_skip_type (st : PState) : PState :=
  if st.tok = Token.Colon then
    let sta := skip_newlines (advance st)
    match sta.tok with
    | Token.Identifier _ => advance sta
    | _ => sta
  else st

/-- The optional `,` separator skip inside the parameter loop (601-603). -/
def param_skip_comma (st : PState) : PState :=
  if st.tok = Token.Comma then advance st else st

/-- The parameter-list loop of `parse_function` (lines 583-613), entered
after consuming `(`. -/
def params_loop : Nat → PState → List String → Option (PState × List String)
  | 0, _, _ => none
  | fuel + 1, st, ps =>
    if st.tok = Token.CloseParen ∨ st.tok = Token.Eof then some (st, ps)
    else
      let st1 := skip_newlines st
      match st1.tok with
      | Token.Identifier param =>
        let st5 := param_skip_comma (skip_newlines (param_skip_type (skip_newlines (advance st1))))
        params_loop fuel st5 (ps ++ [param])
      | Token.CloseParen => some (st1, ps)
      | _ => params_loop fuel (advance st1) ps

/-- The optional parenthesized parameter list of `parse_function`
(lines 582-613): nothing is consumed unless the current token is `(`;
a trailing `)` is consumed when present. -/
def fn_params (st : PState) : Option (PState × List String) :=
  if st.tok = Token.OpenParen then
    (params_loop (pm (advance st) + 1) (advance st) []).map
      (fun r => (if r.1.tok = Token.CloseParen then advance r.1 else r.1, r.2))
  else some (st, [])

/-- The optional `-> Type` return annotation of `parse_function`
(lines 618-630); the type is retained only if it is an identifier. -/
def fn_return_type (st : PState) : Option String × PState :=
  if st.tok = Token.Arrow then
    let sta := skip_newlines (advance st)
    match sta.tok with
    | Token.Identifier t => (some t, advance sta)
    | _ => (none, sta)
  else (none, st)

/-- `Parser::parse_function` (lines 573-681); `none` only on fuel
exhaustion, `some (st, none)` when the function was aborted after a
recorded error. -/
def parse_function (effectful : Bool) (st : PState) : Option (PState × Option DolNode) := do
  let line := st.tokLine
  let st1 := skip_newlines (advance st)
  match expect_identifier st1 with
  | (none, st2) => return (st2, none)
  | (some name, st2) =>
    let r ← fn_params (skip_newlines st2)
    let rt := fn_return_type (skip_newlines r.1)
    let rb ← read_fn_body (skip_newlines rt.2)
    return (rb.2, some (DolNode.Function name r.2 rt.1 (rust_trim rb.1) effectful line))

/-- The `: Type` part of `parse_field` (lines 692-704); the sentinel
"Unknown" stands in for an absent or non-identifier type. -/
def field_type_step (st : PState) : String × PState :=
  if st.tok = Token.Colon then
    let sta := skip_newlines (advance st)
    match sta.tok with
    | Token.Identifier t => (t, advance sta)
    | _ => ("Unknown", sta)
  else ("Unknown", st)

/-- The `= value` part of `parse_field` (lines 709-732); only string,
number, or identifier tokens are accepted as defaults. -/
def field_default_step (st : PState) : Option String × PState :=
  if st.tok = Token.Equals then
    let sta := skip_newlines (advance st)
    match sta.tok with
    | Token.StringLiteral s => (some ("\"" ++ s ++ "\""), advance sta)
    | Token.NumberLiteral n => (some n, advance sta)
    | Token.Identifier i => (some i, advance sta)
    | _ => (none, sta)
  else (none, st)

/-- `Parser::parse_field` (lines 683-740); total. -/
def parse_field (st : PState) : PState × Option DolNode :=
  let line := st.tokLine
  let st1 := skip_newlines (advance st)
  match expect_identifier st1 with
  | (none, st2) => (st2, none)
  | (some name, st2) =>
    let ft := field_type_step (skip_newlines st2)
    let dv := field_default_step (skip_newlines ft.2)
    (dv.2, some (DolNode.Field name ft.1 dv.1 line))

/-- `Parser::parse_constraint` (lines 742-782). -/
def parse_constraint (st : PState) : Option (PState × Option DolNode) := do
  let line := st.tokLine
  let st1 := skip_newlines (advance st)
  match expect_identifier st1 with
  | (none, st2) => return (st2, none)
  | (some name, st2) =>
    let st3 := skip_newlines st2
    let (body, st4) ← read_constraint_body st3
    return (st4, some (DolNode.Constraint name (rust_trim body) line))

/-- `Parser::parse_exegesis` (lines 784-826). -/
def parse_exegesis (st : PState) : Option (PState × Option DolNode) := do
  let line := st.tokLine
  let st1 := skip_newlines (advance st)
  let (content, st2) ← read_exegesis_content st1
  return (st2, some (DolNode.Exegesis (rust_trim content) line))

/-- `Parser::parse_body` (lines 501-571): the shared spirit/gene block
loop, entered with `brace_depth = 1` after the opening brace. -/
def parse_body_loop : Nat → Nat → PState → List DolNode → Option (PState × List DolNode)
  | 0, _, _, _ => none
  | fuel + 1, depth, st, acc =>
    if depth = 0 then some (st, acc)
    else
      let st1 := skip_newlines st
      match st1.tok with
      | Token.Eof =>
        some (push_error "Unexpected end of file, unclosed block" "SyntaxError" st1, acc)
      | Token.OpenBrace => parse_body_loop fuel (depth + 1) (advance st1) acc
      | Token.CloseBrace => parse_body_loop fuel (depth - 1) (advance st1) acc
      | Token.Fun => do
        let r ← parse_function false st1
        parse_body_loop fuel depth r.1 (acc ++ r.2.toList)
      | Token.Sex =>
        let st2 := skip_newlines (advance st1)
        if st2.tok = Token.Fun then do
          let r ← parse_function true st2
          parse_body_loop fuel depth r.1 (acc ++ r.2.toList)
        else
          parse_body_loop fuel depth
            (push_error "Expected \x27fun\x27 after \x27sex\x27" "SyntaxError" st2) acc
      | Token.Has =>
        let r := parse_field st1
        parse_body_loop fuel depth r.1 (acc ++ r.2.toList)
      | Token.Constraint => do
        let r ← parse_constraint st1
        parse_body_loop fuel depth r.1 (acc ++ r.2.toList)
      | Token.Exegesis => do
        let r ← parse_exegesis st1
        parse_body_loop fuel depth r.1 (acc ++ r.2.toList)
      | Token.Pub => parse_body_loop fuel depth (advance st1) acc
      | Token.Comment content =>
        parse_body_loop fuel depth (advance st1) (acc ++ [DolNode.Comment content st1.tokLine])
      | _ => parse_body_loop fuel depth (advance st1) acc

/-- The optional `@X.Y.Z` version literal of `parse_spirit`
(lines 455-462). -/
def spirit_version_step (st : PState) : Option String × PState :=
  match st.tok with
  | Token.Version v => (some v, skip_newlines (advance st))
  | _ => (none, st)

/-- `Parser::parse_spirit` (lines 446-479). -/
def parse_spirit (st : PState) : Option (PState × Option DolNode) := do
  let line := st.tokLine
  let st1 := skip_newlines (advance st)
  match expect_identifier st1 with
  | (none, st2) => return (st2, none)
  | (some name, st2) =>
    let vr := spirit_version_step (skip_newlines st2)
    if vr.2.tok = Token.OpenBrace then do
      let r ← parse_body_loop (pm (advance vr.2) + 1) 1 (advance vr.2) []
      return (r.1, some (DolNode.Spirit name vr.1 r.2 line))
    else
      return (push_error "Expected \x27\x7b\x27 after spirit name" "SyntaxError" vr.2, none)

/-- `Parser::parse_gene` (lines 481-499). -/
def parse_gene (st : PState) : Option (PState × Option DolNode) := do
  let line := st.tokLine
  let st1 := skip_newlines (advance st)
  match expect_identifier st1 with
  | (none, st2) => return (st2, none)
  | (some name, st2) =>
    let st3 := skip_newlines st2
    if st3.tok = Token.OpenBrace then do
      let r ← parse_body_loop (pm (advance st3) + 1) 1 (advance st3) []
      return (r.1, some (DolNode.Gene name r.2 line))
    else
      return (push_error "Expected \x27\x7b\x27 after gene name" "SyntaxError" st3, none)

/-- `Parser::parse` (lines 828-895): the top-level driving loop. -/
def parse_loop : Nat → PState → List DolNode → Option (PState × List DolNode)
  | 0, _, _ => none
  | fuel + 1, st, acc =>
    let st1 := skip_newlines st
    match st1.tok with
    | Token.Eof => some (st1, acc)
    | Token.Spirit => do
      let r ← parse_spirit st1
      parse_loop fuel r.1 (acc ++ r.2.toList)
    | Token.Gene => do
      let r ← parse_gene st1
      parse_loop fuel r.1 (acc ++ r.2.toList)
    | Token.Comment content =>
      parse_loop fuel (advance st1) (acc ++ [DolNode.Comment content st1.tokLine])
    | Token.Exegesis => do
      let r ← parse_exegesis st1
      parse_loop fuel r.1 (acc ++ r.2.toList)
    | Token.Pub => parse_loop fuel (advance st1) acc
    | Token.Fun => do
      let r ← parse_function false st1
      parse_loop fuel r.1 (acc ++ r.2.toList)
    | Token.Sex =>
      let st2 := skip_newlines (advance st1)
      if st2.tok = Token.Fun then do
        let r ← parse_function true st2
        parse_loop fuel r.1 (acc ++ r.2.toList)
      else
        parse_loop fuel (push_error "Expected \x27fun\x27 after \x27sex\x27" "SyntaxError" st2) acc
    | Token.Identifier content =>
      parse_loop fuel
        (advance (push_warning
          ("Warning: Unexpected identifier \x27" ++ content ++ "\x27 at line "
            ++ Nat.repr st1.tokLine) st1)) acc
    | _ => parse_loop fuel (advance st1) acc

/-- `Parser::new` (lines 397-408): prime the one-token lookahead. -/
def init_state (s : String) : PState :=
  let r := next_token ⟨s.data, 1, 1⟩
  ⟨r.2.2.2, r.1, r.2.1, r.2.2.1, [], []⟩

/-- Running `Parser::new(source)` followed by `parser.parse()`: the AST
together with the accumulated errors and warnings. -/
def parse_dol (s : String) : Option (List DolNode × List CompileError × List String) :=
  (parse_loop (pm (init_state s) + 1) (init_state s) []).map
    (fun r => (r.2, r.1.errors, r.1.warnings))

/-! ### Bracket validator (`validate_brackets`, lines 899-977) -/

/-- The four `BracketError` messages of `validate_brackets`. -/
def msg_unclosed_brace : String := "Unclosed brace \x27\x7b\x27"
def msg_unexpected_brace : String := "Unexpected closing brace \x27\x7d\x27"
def msg_unclosed_paren : String := "Unclosed parenthesis \x27(\x27"
def msg_unexpected_paren : String := "Unexpected closing parenthesis \x27)\x27"


/-- Scan state of `validate_brackets`.  Rust pushes opens onto the back of a
`Vec` and pops from the back; here the stacks are cons-lists with the most
recent open in front, so the final unclosed-error pass iterates the
reversed list to recover `Vec` front-to-back order. -/
structure BrState where
  errors : List CompileError
  brace_stack : List (Char × Nat × Nat)
  paren_stack : List (Char × Nat × Nat)
  line : Nat
  column : Nat
  in_string : Bool
  string_char : Char
  prev_char : Char

def br_init : BrState := ⟨[], [], [], 1, 1, false, '"', ' '⟩

/-- One character of the `validate_brackets` scan (lines 910-955).
A newline only advances the line counter (Rust `continue`: neither
`prev_char` nor `column` is updated); otherwise the string-literal toggle
fires first and bracket handling applies only outside strings, then
`prev_char` and `column` advance. -/
def br_step (st : BrState) (c : Char) : BrState :=
  if c = '\n' then { st with line := st.line + 1, column := 1 }
  else
    let in2 :=
      if ¬st.in_string ∧ (c = '"' ∨ c = '\'') then true
      else if st.in_string ∧ c = st.string_char ∧ st.prev_char ≠ '\\' then false
      else st.in_string
    let sc2 := if ¬st.in_string ∧ (c = '"' ∨ c = '\'') then c else st.string_char
    let st1 := { st with in_string := in2, string_char := sc2 }
    let st2 :=
      if in2 then st1
      else if c = '\x7b' then
        { st1 with brace_stack := (c, st1.line, st1.column) :: st1.brace_stack }
      else if c = '\x7d' then
        match st1.brace_stack with
        | [] => { st1 with errors := st1.errors ++
            [⟨msg_unexpected_brace, st1.line, st1.column, "BracketError"⟩] }
        | _ :: rest => { st1 with brace_stack := rest }
      else if c = '(' then
        { st1 with paren_stack := (c, st1.line, st1.column) :: st1.paren_stack }
      else if c = ')' then
        match st1.paren_stack with
        | [] => { st1 with errors := st1.errors ++
            [⟨msg_unexpected_paren, st1.line, st1.column, "BracketError"⟩] }
        | _ :: rest => { st1 with paren_stack := rest }
      else st1
    { st2 with prev_char := c, column := st2.column + 1 }

/-- `validate_brackets` (lines 899-977): scan, then one `BracketError` per
still-open brace and parenthesis, in push order. -/
def validate_brackets (s : String) : List CompileError :=
  let fin := s.data.foldl br_step br_init
  fin.errors
    ++ fin.brace_stack.reverse.map
        (fun e => ⟨msg_unclosed_brace, e.2.1, e.2.2, "BracketError"⟩)
    ++ fin.paren_stack.reverse.map
        (fun e => ⟨msg_unclosed_paren, e.2.1, e.2.2, "BracketError"⟩)

/-! ### Entry points (`compile_dol`, `validate_dol`) -/

def is_spirit_node : DolNode → Bool
  | DolNode.Spirit _ _ _ _ => true
  | _ => false

def is_gene_node : DolNode → Bool
  | DolNode.Gene _ _ _ => true
  | _ => false

def is_function_node : DolNode → Bool
  | DolNode.Function _ _ _ _ _ _ => true
  | _ => false

def is_field_node : DolNode → Bool
  | DolNode.Field _ _ _ _ => true
  | _ => false

def is_constraint_node : DolNode → Bool
  | DolNode.Constraint _ _ _ => true
  | _ => false

/-- `compile_dol` (lines 984-1037): bracket errors first, then parser
errors; `success` iff the combined list is empty; node tallies over the
top level of the AST.  (`none` never occurs; see `compile_dol_total`.) -/
def compile_dol (s : String) : Option CompileResult :=
  (parse_dol s).map (fun r =>
    let all_errors := validate_brackets s ++ r.2.1
    { success := all_errors.isEmpty
      ast := r.1
      errors := all_errors
      warnings := r.2.2
      metadata :=
        { version := "0.7.0"
          spirit_count := r.1.countP is_spirit_node
          gene_count := r.1.countP is_gene_node
          function_count := r.1.countP is_function_node
          field_count := r.1.countP is_field_node
          constraint_count := r.1.countP is_constraint_node
          source_lines := rust_lines_count s } })

/-- `validate_dol` (lines 1048-1057): false as soon as bracket validation
fails, otherwise parse and report emptiness of the parser errors. -/
def validate_dol (s : String) : Option Bool :=
  if (validate_brackets s).isEmpty = false then some false
  else (parse_dol s).map (fun r => r.2.1.isEmpty)

/-! ### Termination of the fueled loops

Fuel `pm st + 1` is always sufficient: every loop iteration strictly
decreases `pm`. -/

theorem pm_param_skip_type_le (st : PState) : pm (param_skip_type st) ≤ pm st := by
  unfold param_skip_type
  split
  · dsimp only
    split
    · exact le_trans (pm_advance_le _) (le_trans (pm_skip_newlines_le _) (pm_advance_le _))
    · exact le_trans (pm_skip_newlines_le _) (pm_advance_le _)
  · exact le_refl _

theorem pm_param_skip_comma_le (st : PState) : pm (param_skip_comma st) ≤ pm st := by
  unfold param_skip_comma
  split
  · exact pm_advance_le _
  · exact le_refl _

theorem pm_field_type_step_le (st : PState) : pm (field_type_step st).2 ≤ pm st := by
  unfold field_type_step
  split
  · dsimp only
    split
    · exact le_trans (pm_advance_le _) (le_trans (pm_skip_newlines_le _) (pm_advance_le _))
    · exact le_trans (pm_skip_newlines_le _) (pm_advance_le _)
  · exact le_refl _

theorem pm_field_default_step_le (st : PState) : pm (field_default_step st).2 ≤ pm st := by
  unfold field_default_step
  split
  · dsimp only
    split
    · exact le_trans (pm_advance_le _) (le_trans (pm_skip_newlines_le _) (pm_advance_le _))
    · exact le_trans (pm_advance_le _) (le_trans (pm_skip_newlines_le _) (pm_advance_le _))
    · exact le_trans (pm_advance_le _) (le_trans (pm_skip_newlines_le _) (pm_advance_le _))
    · exact le_trans (pm_skip_newlines_le _) (pm_advance_le _)
  · exact le_refl _

theorem pm_fn_return_type_le (st : PState) : pm (fn_return_type st).2 ≤ pm st := by
  unfold fn_return_type
  split
  · dsimp only
    split
    · exact le_trans (pm_advance_le _) (le_trans (pm_skip_newlines_le _) (pm_advance_le _))
    · exact le_trans (pm_skip_newlines_le _) (pm_advance_le _)
  · exact le_refl _

theorem brace_body_loop_spec (step : Nat → Token → String → Nat × String) :
    ∀ fuel depth st acc, pm st < fuel →
      ∃ r, brace_body_loop step fuel depth st acc = some r ∧ pm r.1 ≤ pm st := by
  intro fuel
  induction fuel with
  | zero => intro depth st acc h; omega
  | succ n ih =>
    intro depth st acc h
    rw [brace_body_loop]
    by_cases hexit : depth = 0 ∨ st.tok = Token.Eof
    · rw [if_pos hexit]
      exact ⟨(st, acc), rfl, le_refl _⟩
    · rw [if_neg hexit]
      have hne : ¬st.tok = Token.Eof := fun hc => hexit (Or.inr hc)
      have hlt := pm_advance_lt st hne
      obtain ⟨r, hr, hrle⟩ :=
        ih (step depth st.tok acc).1 (advance st) (step depth st.tok acc).2 (by omega)
      exact ⟨r, hr, le_trans hrle (le_of_lt hlt)⟩

theorem read_fn_body_spec (st : PState) :
    ∃ r, read_fn_body st = some r ∧ pm r.2 ≤ pm st := by
  unfold read_fn_body
  split
  · rename_i hob
    have hne : ¬st.tok = Token.Eof := by rw [hob]; exact fun hc => Token.noConfusion hc
    obtain ⟨r, hr, hrle⟩ :=
      brace_body_loop_spec fn_body_step (pm (advance st) + 1) 1 (advance st) "" (by omega)
    exact ⟨(r.2, r.1), by rw [hr]; rfl,
      le_trans hrle (le_of_lt (pm_advance_lt st hne))⟩
  · exact ⟨("", st), rfl, le_refl _⟩

theorem read_constraint_body_spec (st : PState) :
    ∃ r, read_constraint_body st = some r ∧ pm r.2 ≤ pm st := by
  unfold read_constraint_body
  split
  · rename_i hob
    have hne : ¬st.tok = Token.Eof := by rw [hob]; exact fun hc => Token.noConfusion hc
    obtain ⟨r, hr, hrle⟩ :=
      brace_body_loop_spec constraint_body_step (pm (advance st) + 1) 1 (advance st) "" (by omega)
    exact ⟨(r.2, r.1), by rw [hr]; rfl,
      le_trans hrle (le_of_lt (pm_advance_lt st hne))⟩
  · exact ⟨("", st), rfl, le_refl _⟩

theorem read_exegesis_content_spec (st : PState) :
    ∃ r, read_exegesis_content st = some r ∧ pm r.2 ≤ pm st := by
  unfold read_exegesis_content
  split
  · rename_i hob
    have hne : ¬st.tok = Token.Eof := by rw [hob]; exact fun hc => Token.noConfusion hc
    obtain ⟨r, hr, hrle⟩ :=
      brace_body_loop_spec exegesis_step (pm (advance st) + 1) 1 (advance st) "" (by omega)
    exact ⟨(r.2, r.1), by rw [hr]; rfl,
      le_trans hrle (le_of_lt (pm_advance_lt st hne))⟩
  · exact ⟨("", st), rfl, le_refl _⟩

theorem params_loop_spec :
    ∀ fuel st ps, pm st < fuel →
      ∃ r, params_loop fuel st ps = some r ∧ pm r.1 ≤ pm st := by
  intro fuel
  induction fuel with
  | zero => intro st ps h; omega
  | succ n ih =>
    intro st ps h
    rw [params_loop]
    by_cases hexit : st.tok = Token.CloseParen ∨ st.tok = Token.Eof
    · rw [if_pos hexit]
      exact ⟨(st, ps), rfl, le_refl _⟩
    · rw [if_neg hexit]
      dsimp only
      have hne : ¬st.tok = Token.Eof := fun hc => hexit (Or.inr hc)
      have hsk := pm_skip_newlines_le st
      split
      · rename_i param hid
        have hne1 : ¬(skip_newlines st).tok = Token.Eof := by
          rw [hid]; exact fun hc => Token.noConfusion hc
        have hadv := pm_advance_lt (skip_newlines st) hne1
        have h1 := pm_skip_newlines_le (advance (skip_newlines st))
        have h2 := pm_param_skip_type_le (skip_newlines (advance (skip_newlines st)))
        have h3 := pm_skip_newlines_le
          (param_skip_type (skip_newlines (advance (skip_newlines st))))
        have h4 := pm_param_skip_comma_le
          (skip_newlines (param_skip_type (skip_newlines (advance (skip_newlines st)))))
        obtain ⟨r, hr, hrle⟩ := ih
          (param_skip_comma (skip_newlines (param_skip_type
            (skip_newlines (advance (skip_newlines st)))))) (ps ++ [param]) (by omega)
        exact ⟨r, hr, by omega⟩
      · exact ⟨(skip_newlines st, ps), rfl, hsk⟩
      · rcases pm_skip_newlines_cases st with heq | hlt
        · rw [heq]
          have hadv := pm_advance_lt st hne
          obtain ⟨r, hr, hrle⟩ := ih (advance st) ps (by omega)
          exact ⟨r, hr, by omega⟩
        · have hadv := pm_advance_le (skip_newlines st)
          obtain ⟨r, hr, hrle⟩ := ih (advance (skip_newlines st)) ps (by omega)
          exact ⟨r, hr, by omega⟩

theorem fn_params_spec (st : PState) :
    ∃ r, fn_params st = some r ∧ pm r.1 ≤ pm st := by
  unfold fn_params
  split
  · rename_i hop
    have hne : ¬st.tok = Token.Eof := by rw [hop]; exact fun hc => Token.noConfusion hc
    have hadv := pm_advance_lt st hne
    obtain ⟨r, hr, hrle⟩ := params_loop_spec (pm (advance st) + 1) (advance st) [] (by omega)
    have hif : pm (if r.1.tok = Token.CloseParen then advance r.1 else r.1) ≤ pm r.1 := by
      split
      · exact pm_advance_le _
      · exact le_refl _
    exact ⟨(if r.1.tok = Token.CloseParen then advance r.1 else r.1, r.2),
      by rw [hr]; rfl, by dsimp only; omega⟩
  · exact ⟨(st, []), rfl, le_refl _⟩

theorem parse_field_pm (st : PState) (hne : ¬st.tok = Token.Eof) :
    pm (parse_field st).1 < pm st := by
  have hadv := pm_advance_lt st hne
  have hsk := pm_skip_newlines_le (advance st)
  unfold parse_field
  dsimp only
  split
  · rename_i st2 heq
    have he := pm_expect_identifier_le (skip_newlines (advance st))
    rw [heq] at he
    dsimp only at he
    dsimp only
    omega
  · rename_i name st2 heq
    have he := pm_expect_identifier_le (skip_newlines (advance st))
    rw [heq] at he
    dsimp only at he
    have h1 := pm_skip_newlines_le st2
    have h2 := pm_field_type_step_le (skip_newlines st2)
    have h3 := pm_skip_newlines_le (field_type_step (skip_newlines st2)).2
    have h4 := pm_field_default_step_le (skip_newlines (field_type_step (skip_newlines st2)).2)
    dsimp only
    omega

theorem parse_function_spec (e : Bool) (st : PState) (hne : ¬st.tok = Token.Eof) :
    ∃ r, parse_function e st = some r ∧ pm r.1 < pm st := by
  have hadv := pm_advance_lt st hne
  have hsk := pm_skip_newlines_le (advance st)
  unfold parse_function
  dsimp only
  split
  · rename_i st2 heq
    have he := pm_expect_identifier_le (skip_newlines (advance st))
    rw [heq] at he
    dsimp only at he
    exact ⟨(st2, none), rfl, by dsimp only; omega⟩
  · rename_i name st2 heq
    have he := pm_expect_identifier_le (skip_newlines (advance st))
    rw [heq] at he
    dsimp only at he
    have h1 := pm_skip_newlines_le st2
    obtain ⟨rp, hrp, hrple⟩ := fn_params_spec (skip_newlines st2)
    rw [hrp]
    dsimp only [Option.bind_eq_bind, Option.some_bind]
    have h2 := pm_skip_newlines_le rp.1
    have h3 := pm_fn_return_type_le (skip_newlines rp.1)
    have h4 := pm_skip_newlines_le (fn_return_type (skip_newlines rp.1)).2
    obtain ⟨rb, hrb, hrble⟩ :=
      read_fn_body_spec (skip_newlines (fn_return_type (skip_newlines rp.1)).2)
    rw [hrb]
    dsimp only [Option.bind_eq_bind, Option.some_bind]
    exact ⟨_, rfl, by dsimp only; omega⟩

theorem parse_constraint_spec (st : PState) (hne : ¬st.tok = Token.Eof) :
    ∃ r, parse_constraint st = some r ∧ pm r.1 < pm st := by
  have hadv := pm_advance_lt st hne
  have hsk := pm_skip_newlines_le (advance st)
  unfold parse_constraint
  dsimp only
  split
  · rename_i st2 heq
    have he := pm_expect_identifier_le (skip_newlines (advance st))
    rw [heq] at he
    dsimp only at he
    exact ⟨(st2, none), rfl, by dsimp only; omega⟩
  · rename_i name st2 heq
    have he := pm_expect_identifier_le (skip_newlines (advance st))
    rw [heq] at he
    dsimp only at he
    have h1 := pm_skip_newlines_le st2
    obtain ⟨rb, hrb, hrble⟩ := read_constraint_body_spec (skip_newlines st2)
    rw [hrb]
    dsimp only [Option.bind_eq_bind, Option.some_bind]
    exact ⟨_, rfl, by dsimp only; omega⟩

theorem parse_exegesis_spec (st : PState) (hne : ¬st.tok = Token.Eof) :
    ∃ r, parse_exegesis st = some r ∧ pm r.1 < pm st := by
  have hadv := pm_advance_lt st hne
  have hsk := pm_skip_newlines_le (advance st)
  unfold parse_exegesis
  dsimp only
  obtain ⟨rb, hrb, hrble⟩ := read_exegesis_content_spec (skip_newlines (advance st))
  rw [hrb]
  dsimp only [Option.bind_eq_bind, Option.some_bind]
  exact ⟨_, rfl, by dsimp only; omega⟩

theorem parse_body_loop_spec :
    ∀ fuel depth st acc, pm st < fuel →
      ∃ r, parse_body_loop fuel depth st acc = some r ∧ pm r.1 ≤ pm st := by
  intro fuel
  induction fuel with
  | zero => intro depth st acc h; omega
  | succ n ih =>
    intro depth st acc h
    rw [parse_body_loop]
    by_cases hd : depth = 0
    · rw [if_pos hd]
      exact ⟨(st, acc), rfl, le_refl _⟩
    rw [if_neg hd]
    dsimp only
    have hsk := pm_skip_newlines_le st
    split
    · -- Eof: one unclosed-block error, stop
      exact ⟨_, rfl, by rw [pm_push_error]; exact hsk⟩
    · -- OpenBrace
      rename_i heq
      have hne1 : ¬(skip_newlines st).tok = Token.Eof := by
        rw [heq]; exact fun hc => Token.noConfusion hc
      have hadv := pm_advance_lt _ hne1
      obtain ⟨r, hr, hrle⟩ := ih (depth + 1) (advance (skip_newlines st)) acc (by omega)
      exact ⟨r, hr, by omega⟩
    · -- CloseBrace
      rename_i heq
      have hne1 : ¬(skip_newlines st).tok = Token.Eof := by
        rw [heq]; exact fun hc => Token.noConfusion hc
      have hadv := pm_advance_lt _ hne1
      obtain ⟨r, hr, hrle⟩ := ih (depth - 1) (advance (skip_newlines st)) acc (by omega)
      exact ⟨r, hr, by omega⟩
    · -- Fun
      rename_i heq
      have hne1 : ¬(skip_newlines st).tok = Token.Eof := by
        rw [heq]; exact fun hc => Token.noConfusion hc
      obtain ⟨rf, hrf, hrflt⟩ := parse_function_spec false (skip_newlines st) hne1
      rw [hrf]
      dsimp only [Option.bind_eq_bind, Option.some_bind]
      obtain ⟨r, hr, hrle⟩ := ih depth rf.1 (acc ++ rf.2.toList) (by omega)
      exact ⟨r, hr, by omega⟩
    · -- Sex
      rename_i heq
      have hne1 : ¬(skip_newlines st).tok = Token.Eof := by
        rw [heq]; exact fun hc => Token.noConfusion hc
      have hadv := pm_advance_lt _ hne1
      have hs2 := pm_skip_newlines_le (advance (skip_newlines st))
      by_cases hf : (skip_newlines (advance (skip_newlines st))).tok = Token.Fun
      · rw [if_pos hf]
        have hne2 : ¬(skip_newlines (advance (skip_newlines st))).tok = Token.Eof := by
          rw [hf]; exact fun hc => Token.noConfusion hc
        obtain ⟨rf, hrf, hrflt⟩ := parse_function_spec true _ hne2
        rw [hrf]
        dsimp only [Option.bind_eq_bind, Option.some_bind]
        obtain ⟨r, hr, hrle⟩ := ih depth rf.1 (acc ++ rf.2.toList) (by omega)
        exact ⟨r, hr, by omega⟩
      · rw [if_neg hf]
        have hpe := pm_push_error "Expected \x27fun\x27 after \x27sex\x27" "SyntaxError"
          (skip_newlines (advance (skip_newlines st)))
        obtain ⟨r, hr, hrle⟩ := ih depth
          (push_error "Expected \x27fun\x27 after \x27sex\x27" "SyntaxError"
            (skip_newlines (advance (skip_newlines st)))) acc (by omega)
        exact ⟨r, hr, by omega⟩
    · -- Has
      rename_i heq
      have hne1 : ¬(skip_newlines st).tok = Token.Eof := by
        rw [heq]; exact fun hc => Token.noConfusion hc
      have hfld := parse_field_pm (skip_newlines st) hne1
      obtain ⟨r, hr, hrle⟩ := ih depth (parse_field (skip_newlines st)).1
        (acc ++ (parse_field (skip_newlines st)).2.toList) (by omega)
      exact ⟨r, hr, by omega⟩
    · -- Constraint
      rename_i heq
      have hne1 : ¬(skip_newlines st).tok = Token.Eof := by
        rw [heq]; exact fun hc => Token.noConfusion hc
      obtain ⟨rf, hrf, hrflt⟩ := parse_constraint_spec (skip_newlines st) hne1
      rw [hrf]
      dsimp only [Option.bind_eq_bind, Option.some_bind]
      obtain ⟨r, hr, hrle⟩ := ih depth rf.1 (acc ++ rf.2.toList) (by omega)
      exact ⟨r, hr, by omega⟩
    · -- Exegesis
      rename_i heq
      have hne1 : ¬(skip_newlines st).tok = Token.Eof := by
        rw [heq]; exact fun hc => Token.noConfusion hc
      obtain ⟨rf, hrf, hrflt⟩ := parse_exegesis_spec (skip_newlines st) hne1
      rw [hrf]
      dsimp only [Option.bind_eq_bind, Option.some_bind]
      obtain ⟨r, hr, hrle⟩ := ih depth rf.1 (acc ++ rf.2.toList) (by omega)
      exact ⟨r, hr, by omega⟩
    · -- Pub
      rename_i heq
      have hne1 : ¬(skip_newlines st).tok = Token.Eof := by
        rw [heq]; exact fun hc => Token.noConfusion hc
      have hadv := pm_advance_lt _ hne1
      obtain ⟨r, hr, hrle⟩ := ih depth (advance (skip_newlines st)) acc (by omega)
      exact ⟨r, hr, by omega⟩
    · -- Comment
      rename_i content heq
      have hne1 : ¬(skip_newlines st).tok = Token.Eof := by
        rw [heq]; exact fun hc => Token.noConfusion hc
      have hadv := pm_advance_lt _ hne1
      obtain ⟨r, hr, hrle⟩ := ih depth (advance (skip_newlines st))
        (acc ++ [DolNode.Comment content (skip_newlines st).tokLine]) (by omega)
      exact ⟨r, hr, by omega⟩
    · -- every other token: silently skipped
      rename_i h1 h2 h3 h4 h5 h6 h7 h8 h9 h10
      have hne1 : ¬(skip_newlines st).tok = Token.Eof := fun hc => h1 hc
      have hadv := pm_advance_lt _ hne1
      obtain ⟨r, hr, hrle⟩ := ih depth (advance (skip_newlines st)) acc (by omega)
      exact ⟨r, hr, by omega⟩

theorem parse_gene_spec (st : PState) (hne : ¬st.tok = Token.Eof) :
    ∃ r, parse_gene st = some r ∧ pm r.1 < pm st := by
  have hadv := pm_advance_lt st hne
  have hsk := pm_skip_newlines_le (advance st)
  unfold parse_gene
  dsimp only
  split
  · rename_i st2 heq
    have he := pm_expect_identifier_le (skip_newlines (advance st))
    rw [heq] at he
    dsimp only at he
    exact ⟨(st2, none), rfl, by dsimp only; omega⟩
  · rename_i name st2 heq
    have he := pm_expect_identifier_le (skip_newlines (advance st))
    rw [heq] at he
    dsimp only at he
    have h1 := pm_skip_newlines_le st2
    by_cases hob : (skip_newlines st2).tok = Token.OpenBrace
    · rw [if_pos hob]
      have hne2 : ¬(skip_newlines st2).tok = Token.Eof := by
        rw [hob]; exact fun hc => Token.noConfusion hc
      have hadv2 := pm_advance_lt _ hne2
      obtain ⟨r, hr, hrle⟩ := parse_body_loop_spec (pm (advance (skip_newlines st2)) + 1) 1
        (advance (skip_newlines st2)) [] (by omega)
      rw [hr]
      dsimp only [Option.bind_eq_bind, Option.some_bind]
      exact ⟨_, rfl, by dsimp only; omega⟩
    · rw [if_neg hob]
      have hpe := pm_push_error "Expected \x27\x7b\x27 after gene name" "SyntaxError"
        (skip_newlines st2)
      exact ⟨_, rfl, by dsimp only; omega⟩

theorem pm_spirit_version_step_le (st : PState) : pm (spirit_version_step st).2 ≤ pm st := by
  unfold spirit_version_step
  split
  · rename_i v hv
    have hne : ¬st.tok = Token.Eof := by rw [hv]; exact fun hc => Token.noConfusion hc
    exact le_trans (pm_skip_newlines_le _) (le_of_lt (pm_advance_lt st hne))
  · exact le_refl _

theorem parse_spirit_spec (st : PState) (hne : ¬st.tok = Token.Eof) :
    ∃ r, parse_spirit st = some r ∧ pm r.1 < pm st := by
  have hadv := pm_advance_lt st hne
  have hsk := pm_skip_newlines_le (advance st)
  unfold parse_spirit
  dsimp only
  split
  · rename_i st2 heq
    have he := pm_expect_identifier_le (skip_newlines (advance st))
    rw [heq] at he
    dsimp only at he
    exact ⟨(st2, none), rfl, by dsimp only; omega⟩
  · rename_i name st2 heq
    have he := pm_expect_identifier_le (skip_newlines (advance st))
    rw [heq] at he
    dsimp only at he
    have h1 := pm_skip_newlines_le st2
    have hvr := pm_spirit_version_step_le (skip_newlines st2)
    by_cases hob : (spirit_version_step (skip_newlines st2)).2.tok = Token.OpenBrace
    · rw [if_pos hob]
      have hne2 : ¬(spirit_version_step (skip_newlines st2)).2.tok = Token.Eof := by
        rw [hob]; exact fun hc => Token.noConfusion hc
      have hadv2 := pm_advance_lt _ hne2
      obtain ⟨r, hr, hrle⟩ := parse_body_loop_spec
        (pm (advance (spirit_version_step (skip_newlines st2)).2) + 1) 1
        (advance (spirit_version_step (skip_newlines st2)).2) [] (by omega)
      rw [hr]
      dsimp only [Option.bind_eq_bind, Option.some_bind]
      exact ⟨_, rfl, by dsimp only; omega⟩
    · rw [if_neg hob]
      have hpe := pm_push_error "Expected \x27\x7b\x27 after spirit name" "SyntaxError"
        (spirit_version_step (skip_newlines st2)).2
      exact ⟨_, rfl, by dsimp only; omega⟩

theorem parse_loop_spec :
    ∀ fuel st acc, pm st < fuel → ∃ r, parse_loop fuel st acc = some r := by
  intro fuel
  induction fuel with
  | zero => intro st acc h; omega
  | succ n ih =>
    intro st acc h
    rw [parse_loop]
    dsimp only
    have hsk := pm_skip_newlines_le st
    split
    · exact ⟨_, rfl⟩
    · -- Spirit
      rename_i heq
      have hne1 : ¬(skip_newlines st).tok = Token.Eof := by
        rw [heq]; exact fun hc => Token.noConfusion hc
      obtain ⟨rf, hrf, hrflt⟩ := parse_spirit_spec (skip_newlines st) hne1
      rw [hrf]
      dsimp only [Option.bind_eq_bind, Option.some_bind]
      exact ih rf.1 (acc ++ rf.2.toList) (by omega)
    · -- Gene
      rename_i heq
      have hne1 : ¬(skip_newlines st).tok = Token.Eof := by
        rw [heq]; exact fun hc => Token.noConfusion hc
      obtain ⟨rf, hrf, hrflt⟩ := parse_gene_spec (skip_newlines st) hne1
      rw [hrf]
      dsimp only [Option.bind_eq_bind, Option.some_bind]
      exact ih rf.1 (acc ++ rf.2.toList) (by omega)
    · -- Comment
      rename_i content heq
      have hne1 : ¬(skip_newlines st).tok = Token.Eof := by
        rw [heq]; exact fun hc => Token.noConfusion hc
      have hadv := pm_advance_lt _ hne1
      exact ih (advance (skip_newlines st))
        (acc ++ [DolNode.Comment content (skip_newlines st).tokLine]) (by omega)
    · -- Exegesis
      rename_i heq
      have hne1 : ¬(skip_newlines st).tok = Token.Eof := by
        rw [heq]; exact fun hc => Token.noConfusion hc
      obtain ⟨rf, hrf, hrflt⟩ := parse_exegesis_spec (skip_newlines st) hne1
      rw [hrf]
      dsimp only [Option.bind_eq_bind, Option.some_bind]
      exact ih rf.1 (acc ++ rf.2.toList) (by omega)
    · -- Pub
      rename_i heq
      have hne1 : ¬(skip_newlines st).tok = Token.Eof := by
        rw [heq]; exact fun hc => Token.noConfusion hc
      have hadv := pm_advance_lt _ hne1
      exact ih (advance (skip_newlines st)) acc (by omega)
    · -- Fun
      rename_i heq
      have hne1 : ¬(skip_newlines st).tok = Token.Eof := by
        rw [heq]; exact fun hc => Token.noConfusion hc
      obtain ⟨rf, hrf, hrflt⟩ := parse_function_spec false (skip_newlines st) hne1
      rw [hrf]
      dsimp only [Option.bind_eq_bind, Option.some_bind]
      exact ih rf.1 (acc ++ rf.2.toList) (by omega)
    · -- Sex
      rename_i heq
      have hne1 : ¬(skip_newlines st).tok = Token.Eof := by
        rw [heq]; exact fun hc => Token.noConfusion hc
      have hadv := pm_advance_lt _ hne1
      have hs2 := pm_skip_newlines_le (advance (skip_newlines st))
      by_cases hf : (skip_newlines (advance (skip_newlines st))).tok = Token.Fun
      · rw [if_pos hf]
        have hne2 : ¬(skip_newlines (advance (skip_newlines st))).tok = Token.Eof := by
          rw [hf]; exact fun hc => Token.noConfusion hc
        obtain ⟨rf, hrf, hrflt⟩ := parse_function_spec true _ hne2
        rw [hrf]
        dsimp only [Option.bind_eq_bind, Option.some_bind]
        exact ih rf.1 (acc ++ rf.2.toList) (by omega)
      · rw [if_neg hf]
        have hpe := pm_push_error "Expected \x27fun\x27 after \x27sex\x27" "SyntaxError"
          (skip_newlines (advance (skip_newlines st)))
        exact ih _ acc (by omega)
    · -- unexpected identifier: warn and skip
      rename_i content heq
      have hne1 : ¬(push_warning ("Warning: Unexpected identifier \x27" ++ content
          ++ "\x27 at line " ++ Nat.repr (skip_newlines st).tokLine)
          (skip_newlines st)).tok = Token.Eof := by
        show ¬(skip_newlines st).tok = Token.Eof
        rw [heq]; exact fun hc => Token.noConfusion hc
      have hadv := pm_advance_lt _ hne1
      have hpw := pm_push_warning ("Warning: Unexpected identifier \x27" ++ content
          ++ "\x27 at line " ++ Nat.repr (skip_newlines st).tokLine) (skip_newlines st)
      exact ih _ acc (by omega)
    · -- any other token: skip silently
      rename_i h1 h2 h3 h4 h5 h6 h7 h8 h9
      have hne1 : ¬(skip_newlines st).tok = Token.Eof := fun hc => h1 hc
      have hadv := pm_advance_lt _ hne1
      exact ih (advance (skip_newlines st)) acc (by omega)

/-- `Parser::parse` never fails: the fuel `pm + 1` is always sufficient. -/
theorem parse_dol_total (s : String) : ∃ r, parse_dol s = some r := by
  obtain ⟨r, hr⟩ := parse_loop_spec (pm (init_state s) + 1) (init_state s) [] (by omega)
  exact ⟨_, by rw [parse_dol, hr]; rfl⟩

/-! ### Spec-side model for bracket soundness

`net_step` is modelled from the spec's words ("the number of net-unclosed
`{` after removing matched pairs outside string literals"): a counter that
goes up on `{`, down on a matched `}`, with the same string-literal
skipping rule, plus a counter of unmatched closing braces. -/

/-- Modelled from the spec: net-unclosed-brace counter state. -/
structure NetState where
  n : Nat
  unexpected : Nat
  in_string : Bool
  string_char : Char
  prev_char : Char

/-- Modelled from the spec: one character of the net-unclosed count. -/
def net_step (st : NetState) (c : Char) : NetState :=
  if c = '\n' then st
  else
    let in2 :=
      if ¬st.in_string ∧ (c = '"' ∨ c = '\'') then true
      else if st.in_string ∧ c = st.string_char ∧ st.prev_char ≠ '\\' then false
      else st.in_string
    let sc2 := if ¬st.in_string ∧ (c = '"' ∨ c = '\'') then c else st.string_char
    let st1 := { st with in_string := in2, string_char := sc2 }
    let st2 :=
      if in2 then st1
      else if c = '\x7b' then { st1 with n := st1.n + 1 }
      else if c = '\x7d' then
        if st1.n = 0 then { st1 with unexpected := st1.unexpected + 1 }
        else { st1 with n := st1.n - 1 }
      else st1
    { st2 with prev_char := c }

/-- Modelled from the spec: net-unclosed `{` count outside strings. -/
def net_unclosed (s : String) : Nat :=
  (s.data.foldl net_step ⟨0, 0, false, '"', ' '⟩).n

/-- Modelled from the spec: unmatched `}` count outside strings. -/
def net_unexpected (s : String) : Nat :=
  (s.data.foldl net_step ⟨0, 0, false, '"', ' '⟩).unexpected

/-- Number of errors carrying a given message. -/
def count_msg (m : String) (l : List CompileError) : Nat :=
  l.countP (fun e => e.message == m)

theorem count_msg_append (m : String) (l1 l2 : List CompileError) :
    count_msg m (l1 ++ l2) = count_msg m l1 + count_msg m l2 :=
  List.countP_append _ _ _

theorem count_msg_singleton (m : String) (e : CompileError) :
    count_msg m [e] = if e.message == m then 1 else 0 := by
  simp only [count_msg, List.countP_cons, List.countP_nil, Nat.zero_add]

theorem count_msg_map_entries (m msg : String) (l : List (Char × Nat × Nat)) :
    count_msg m (l.map (fun e => ⟨msg, e.2.1, e.2.2, "BracketError"⟩)) =
      if msg == m then l.length else 0 := by
  induction l with
  | nil => simp [count_msg]
  | cons a t ih =>
    simp only [List.map_cons, count_msg, List.countP_cons] at ih ⊢
    split <;> simp_all

/-- Simulation relation between the implementation scan state and the
spec-side counter state. -/
def br_net_rel (b : BrState) (nst : NetState) : Prop :=
  b.in_string = nst.in_string ∧ b.string_char = nst.string_char ∧
  b.prev_char = nst.prev_char ∧ b.brace_stack.length = nst.n ∧
  count_msg msg_unclosed_brace b.errors = 0 ∧
  count_msg msg_unexpected_brace b.errors = nst.unexpected

theorem br_net_rel_step (b : BrState) (nst : NetState) (c : Char) (h : br_net_rel b nst) :
    br_net_rel (br_step b c) (net_step nst c) := by
  obtain ⟨h1, h2, h3, h4, h5, h6⟩ := h
  unfold br_step net_step
  by_cases hc : c = '\n'
  · rw [if_pos hc, if_pos hc]
    exact ⟨h1, h2, h3, h4, h5, h6⟩
  rw [if_neg hc, if_neg hc]
  dsimp only
  rw [h1, h2, h3]
  by_cases hin : (if ¬nst.in_string ∧ (c = '"' ∨ c = '\'') then true
      else if nst.in_string ∧ c = nst.string_char ∧ nst.prev_char ≠ '\\' then false
      else nst.in_string) = true
  · rw [if_pos hin, if_pos hin]
    exact ⟨rfl, rfl, rfl, h4, h5, h6⟩
  · rw [if_neg hin, if_neg hin]
    by_cases hob : c = '\x7b'
    · rw [if_pos hob, if_pos hob]
      refine ⟨rfl, rfl, rfl, ?_, h5, h6⟩
      simp [h4]
    rw [if_neg hob, if_neg hob]
    by_cases hcb : c = '\x7d'
    · rw [if_pos hcb, if_pos hcb]
      cases hstk : b.brace_stack with
      | nil =>
        have hn0 : nst.n = 0 := by rw [← h4, hstk]; rfl
        rw [if_pos hn0]
        refine ⟨rfl, rfl, rfl, by simp [hstk, h4, hn0], ?_, ?_⟩
        · rw [count_msg_append, h5, count_msg_singleton]
          simp [msg_unexpected_brace, msg_unclosed_brace]
        · rw [count_msg_append, h6, count_msg_singleton]
          simp [msg_unexpected_brace]
      | cons a t =>
        have hn0 : ¬nst.n = 0 := by rw [← h4, hstk]; simp
        rw [if_neg hn0]
        refine ⟨rfl, rfl, rfl, ?_, h5, h6⟩
        rw [← h4, hstk]
        simp
    rw [if_neg hcb, if_neg hcb]
    by_cases hop : c = '('
    · rw [if_pos hop]
      exact ⟨rfl, rfl, rfl, h4, h5, h6⟩
    rw [if_neg hop]
    by_cases hcp : c = ')'
    · rw [if_pos hcp]
      cases hstk : b.paren_stack with
      | nil =>
        refine ⟨rfl, rfl, rfl, h4, ?_, ?_⟩
        · rw [count_msg_append, h5, count_msg_singleton]
          simp [msg_unexpected_paren, msg_unclosed_brace]
        · rw [count_msg_append, h6, count_msg_singleton]
          simp [msg_unexpected_paren, msg_unexpected_brace]
      | cons a t => exact ⟨rfl, rfl, rfl, h4, h5, h6⟩
    rw [if_neg hcp]
    exact ⟨rfl, rfl, rfl, h4, h5, h6⟩

theorem br_net_rel_foldl (cs : List Char) :
    ∀ (b : BrState) (nst : NetState), br_net_rel b nst →
      br_net_rel (cs.foldl br_step b) (cs.foldl net_step nst) := by
  induction cs with
  | nil => intro b nst h; exact h
  | cons c t ih =>
    intro b nst h
    exact ih _ _ (br_net_rel_step b nst c h)

theorem validate_brackets_unclosed_count (s : String) :
    count_msg msg_unclosed_brace (validate_brackets s) = net_unclosed s := by
  obtain ⟨h1, h2, h3, h4, h5, h6⟩ :=
    br_net_rel_foldl s.data br_init ⟨0, 0, false, '"', ' '⟩ ⟨rfl, rfl, rfl, rfl, rfl, rfl⟩
  unfold validate_brackets net_unclosed
  dsimp only
  rw [count_msg_append, count_msg_append, h5, count_msg_map_entries, count_msg_map_entries]
  have e1 : (msg_unclosed_brace == msg_unclosed_brace) = true := by decide
  have e2 : (msg_unclosed_paren == msg_unclosed_brace) = false := by decide
  rw [e1, e2]
  simp [h4]

theorem validate_brackets_unexpected_count (s : String) :
    count_msg msg_unexpected_brace (validate_brackets s) = net_unexpected s := by
  obtain ⟨h1, h2, h3, h4, h5, h6⟩ :=
    br_net_rel_foldl s.data br_init ⟨0, 0, false, '"', ' '⟩ ⟨rfl, rfl, rfl, rfl, rfl, rfl⟩
  unfold validate_brackets net_unexpected
  dsimp only
  rw [count_msg_append, count_msg_append, h6, count_msg_map_entries, count_msg_map_entries]
  have e1 : (msg_unclosed_brace == msg_unexpected_brace) = false := by decide
  have e2 : (msg_unclosed_paren == msg_unexpected_brace) = false := by decide
  rw [e1, e2]
  simp

/-! ### Diagnostics-preservation of the token-skipping primitives -/

theorem advance_errors (st : PState) : (advance st).errors = st.errors := rfl

theorem advance_warnings (st : PState) : (advance st).warnings = st.warnings := rfl

theorem skip_newlines_loop_errors : ∀ fuel st, (skip_newlines_loop fuel st).errors = st.errors := by
  intro fuel
  induction fuel with
  | zero => intro st; rfl
  | succ n ih =>
    intro st
    rw [skip_newlines_loop]
    split
    · rw [ih, advance_errors]
    · rfl

theorem skip_newlines_errors (st : PState) : (skip_newlines st).errors = st.errors :=
  skip_newlines_loop_errors _ st

theorem skip_newlines_loop_warnings :
    ∀ fuel st, (skip_newlines_loop fuel st).warnings = st.warnings := by
  intro fuel
  induction fuel with
  | zero => intro st; rfl
  | succ n ih =>
    intro st
    rw [skip_newlines_loop]
    split
    · rw [ih, advance_warnings]
    · rfl

theorem skip_newlines_warnings (st : PState) : (skip_newlines st).warnings = st.warnings :=
  skip_newlines_loop_warnings _ st

/-! ### Keyword classification and top-level dispatch helpers -/

/-- The words the lexer's keyword table actually maps to keyword tokens. -/
def dol_keywords : List String :=
  ["spirit", "gene", "trait", "fun", "sex", "has", "let", "const", "mut",
   "if", "else", "match", "return", "exegesis", "constraint", "pub", "self"]

/-- Whether a token is one of the reserved-word tokens (as opposed to an
identifier, literal, punctuation, comment, or control token). -/
def is_keyword_token : Token → Bool
  | Token.Spirit | Token.Gene | Token.Trait | Token.Fun | Token.Sex | Token.Has
  | Token.Let | Token.Const | Token.Mut | Token.If | Token.Else | Token.Match
  | Token.Return | Token.Exegesis | Token.Constraint | Token.Pub | Token.Self_ => true
  | _ => false

/-- The tokens the top-level `parse` loop dispatches on explicitly
(lines 834-880); everything else falls into the wildcard arm. -/
def top_level_dispatched : Token → Bool
  | Token.Eof | Token.Spirit | Token.Gene | Token.Comment _ | Token.Exegesis
  | Token.Pub | Token.Fun | Token.Sex => true
  | _ => false

theorem read_ident_rest_all : ∀ (cs : List Char) (l c : Nat) (acc : String),
    (∀ ch ∈ cs, ch.isAlphanum = true ∨ ch = '_') →
    read_ident_rest ⟨cs, l, c⟩ acc = (⟨acc.data ++ cs⟩, ⟨[], l, c + cs.length⟩) := by
  intro cs
  induction cs with
  | nil =>
    intro l c acc h
    simp [read_ident_rest, read_ident_rest_aux]
  | cons ch t ih =>
    intro l c acc h
    have hch := h ch (by simp)
    have hrec : read_ident_rest_aux t l (c + 1) (acc.push ch)
        = (⟨(acc.push ch).data ++ t⟩, ⟨[], l, c + 1 + t.length⟩) :=
      ih l (c + 1) (acc.push ch) (fun x hx => h x (by simp [hx]))
    have h1 : acc.data ++ ch :: t = (acc.push ch).data ++ t := by simp [String.push]
    have h2 : c + (ch :: t).length = c + 1 + t.length := by simp; omega
    show read_ident_rest_aux (ch :: t) l c acc = _
    simp only [read_ident_rest_aux]
    rw [if_pos hch, hrec, h1, h2]

theorem alpha_us_ne (c x : Char) (hc : c.isAlpha = true ∨ c = '_')
    (hx : ¬(x.isAlpha = true ∨ x = '_')) : ¬c = x :=
  fun heq => hx (heq ▸ hc)

theorem alpha_us_not_ws (c : Char) (hc : c.isAlpha = true ∨ c = '_') :
    ¬(c = ' ' ∨ c = '\t' ∨ c = '\x0d') := by
  rintro (h | h | h) <;> subst h <;> rcases hc with hc | hc <;>
    exact absurd hc (by decide)

/-- The keyword table sends exactly the words of `dol_keywords` to keyword
tokens, and every other word to `Token.Identifier`. -/
theorem keyword_token_spec (s : String) :
    (is_keyword_token (keyword_token s) = true ↔ s ∈ dol_keywords)
    ∧ (s ∉ dol_keywords → keyword_token s = Token.Identifier s) := by
  unfold keyword_token
  by_cases h1 : s = "spirit"
  · rw [if_pos h1]
    constructor
    · constructor
      · intro _; rw [h1]; decide
      · intro _; rfl
    · intro hns; exact absurd (show s ∈ dol_keywords by rw [h1]; decide) hns
  rw [if_neg h1]
  by_cases h2 : s = "gene"
  · rw [if_pos h2]
    constructor
    · constructor
      · intro _; rw [h2]; decide
      · intro _; rfl
    · intro hns; exact absurd (show s ∈ dol_keywords by rw [h2]; decide) hns
  rw [if_neg h2]
  by_cases h3 : s = "trait"
  · rw [if_pos h3]
    constructor
    · constructor
      · intro _; rw [h3]; decide
      · intro _; rfl
    · intro hns; exact absurd (show s ∈ dol_keywords by rw [h3]; decide) hns
  rw [if_neg h3]
  by_cases h4 : s = "fun"
  · rw [if_pos h4]
    constructor
    · constructor
      · intro _; rw [h4]; decide
      · intro _; rfl
    · intro hns; exact absurd (show s ∈ dol_keywords by rw [h4]; decide) hns
  rw [if_neg h4]
  by_cases h5 : s = "sex"
  · rw [if_pos h5]
    constructor
    · constructor
      · intro _; rw [h5]; decide
      · intro _; rfl
    · intro hns; exact absurd (show s ∈ dol_keywords by rw [h5]; decide) hns
  rw [if_neg h5]
  by_cases h6 : s = "has"
  · rw [if_pos h6]
    constructor
    · constructor
      · intro _; rw [h6]; decide
      · intro _; rfl
    · intro hns; exact absurd (show s ∈ dol_keywords by rw [h6]; decide) hns
  rw [if_neg h6]
  by_cases h7 : s = "let"
  · rw [if_pos h7]
    constructor
    · constructor
      · intro _; rw [h7]; decide
      · intro _; rfl
    · intro hns; exact absurd (show s ∈ dol_keywords by rw [h7]; decide) hns
  rw [if_neg h7]
  by_cases h8 : s = "const"
  · rw [if_pos h8]
    constructor
    · constructor
      · intro _; rw [h8]; decide
      · intro _; rfl
    · intro hns; exact absurd (show s ∈ dol_keywords by rw [h8]; decide) hns
  rw [if_neg h8]
  by_cases h9 : s = "mut"
  · rw [if_pos h9]
    constructor
    · constructor
      · intro _; rw [h9]; decide
      · intro _; rfl
    · intro hns; exact absurd (show s ∈ dol_keywords by rw [h9]; decide) hns
  rw [if_neg h9]
  by_cases h10 : s = "if"
  · rw [if_pos h10]
    constructor
    · constructor
      · intro _; rw [h10]; decide
      · intro _; rfl
    · intro hns; exact absurd (show s ∈ dol_keywords by rw [h10]; decide) hns
  rw [if_neg h10]
  by_cases h11 : s = "else"
  · rw [if_pos h11]
    constructor
    · constructor
      · intro _; rw [h11]; decide
      · intro _; rfl
    · intro hns; exact absurd (show s ∈ dol_keywords by rw [h11]; decide) hns
  rw [if_neg h11]
  by_cases h12 : s = "match"
  · rw [if_pos h12]
    constructor
    · constructor
      · intro _; rw [h12]; decide
      · intro _; rfl
    · intro hns; exact absurd (show s ∈ dol_keywords by rw [h12]; decide) hns
  rw [if_neg h12]
  by_cases h13 : s = "return"
  · rw [if_pos h13]
    constructor
    · constructor
      · intro _; rw [h13]; decide
      · intro _; rfl
    · intro hns; exact absurd (show s ∈ dol_keywords by rw [h13]; decide) hns
  rw [if_neg h13]
  by_cases h14 : s = "exegesis"
  · rw [if_pos h14]
    constructor
    · constructor
      · intro _; rw [h14]; decide
      · intro _; rfl
    · intro hns; exact absurd (show s ∈ dol_keywords by rw [h14]; decide) hns
  rw [if_neg h14]
  by_cases h15 : s = "constraint"
  · rw [if_pos h15]
    constructor
    · constructor
      · intro _; rw [h15]; decide
      · intro _; rfl
    · intro hns; exact absurd (show s ∈ dol_keywords by rw [h15]; decide) hns
  rw [if_neg h15]
  by_cases h16 : s = "pub"
  · rw [if_pos h16]
    constructor
    · constructor
      · intro _; rw [h16]; decide
      · intro _; rfl
    · intro hns; exact absurd (show s ∈ dol_keywords by rw [h16]; decide) hns
  rw [if_neg h16]
  by_cases h17 : s = "self"
  · rw [if_pos h17]
    constructor
    · constructor
      · intro _; rw [h17]; decide
      · intro _; rfl
    · intro hns; exact absurd (show s ∈ dol_keywords by rw [h17]; decide) hns
  rw [if_neg h17]
  have hnot : ¬s ∈ dol_keywords := by
    simp only [dol_keywords, List.mem_cons, List.not_mem_nil, or_false]
    push_neg
    exact ⟨h1, h2, h3, h4, h5, h6, h7, h8, h9, h10, h11, h12, h13, h14, h15, h16, h17⟩
  constructor
  · constructor
    · intro hk; exact absurd hk (by simp [is_keyword_token])
    · intro hmem; exact absurd hmem hnot
  · intro _; rfl

/-- Lexing a maximal alphanumeric/underscore word starting with a letter or
underscore yields exactly the keyword table's classification of the word. -/
theorem next_token_word (w : String) (c : Char) (cs : List Char)
    (hw : w.data = c :: cs) (hc : c.isAlpha = true ∨ c = '_')
    (hcs : ∀ ch ∈ cs, ch.isAlphanum = true ∨ ch = '_') :
    (next_token ⟨w.data, 1, 1⟩).1 = keyword_token w := by
  rw [hw]
  have hws := alpha_us_not_ws c hc
  have hsw : skip_ws ⟨c :: cs, 1, 1⟩ = ⟨c :: cs, 1, 1⟩ := by
    show skip_ws_aux (c :: cs) 1 1 = _
    simp only [skip_ws_aux]
    rw [if_neg hws]
  unfold next_token
  rw [hsw]
  simp only [next_token_core]
  rw [if_neg (alpha_us_ne c '\n' hc (by decide))]
  rw [if_neg (alpha_us_ne c '\x7b' hc (by decide))]
  rw [if_neg (alpha_us_ne c '\x7d' hc (by decide))]
  rw [if_neg (alpha_us_ne c '(' hc (by decide))]
  rw [if_neg (alpha_us_ne c ')' hc (by decide))]
  rw [if_neg (alpha_us_ne c '[' hc (by decide))]
  rw [if_neg (alpha_us_ne c ']' hc (by decide))]
  rw [if_neg (alpha_us_ne c ':' hc (by decide))]
  rw [if_neg (alpha_us_ne c ',' hc (by decide))]
  rw [if_neg (alpha_us_ne c '.' hc (by decide))]
  rw [if_neg (alpha_us_ne c '+' hc (by decide))]
  rw [if_neg (alpha_us_ne c '*' hc (by decide))]
  rw [if_neg (alpha_us_ne c '-' hc (by decide))]
  rw [if_neg (alpha_us_ne c '=' hc (by decide))]
  rw [if_neg (alpha_us_ne c '|' hc (by decide))]
  rw [if_neg (alpha_us_ne c '@' hc (by decide))]
  rw [if_neg (alpha_us_ne c '/' hc (by decide))]
  rw [if_neg (alpha_us_ne c '"' hc (by decide))]
  rw [if_neg (alpha_us_ne c '\'' hc (by decide))]
  rw [if_pos hc]
  rw [read_ident_rest_all cs 1 2 (String.singleton c) hcs]
  show keyword_token ⟨(String.singleton c).data ++ cs⟩ = keyword_token w
  have hd : (String.singleton c).data ++ cs = w.data := by rw [hw]; rfl
  rw [hd]

/-! ### Claim theorems -/

theorem push_warning_errors (w : String) (st : PState) :
    (push_warning w st).errors = st.errors := rfl

theorem isEmpty_iff_nil (l : List CompileError) : l.isEmpty = true ↔ l = [] := by
  cases l <;> simp

/-- Claim C1: for every input string, the boolean returned by `validate_dol`
equals the `success` field of the `compile_dol` result: both reduce to
emptiness of the combined bracket-plus-parser error list, and warnings
affect neither. -/
theorem claim1_validate_matches_compile_success (s : String) :
    (compile_dol s).map CompileResult.success = validate_dol s := by
  obtain ⟨rp, hr⟩ := parse_dol_total s
  rw [compile_dol, validate_dol, hr]
  by_cases hb : (validate_brackets s).isEmpty = false
  · rw [if_pos hb]
    cases hvb : validate_brackets s with
    | nil => rw [hvb] at hb; simp at hb
    | cons a t => rfl
  · have hvb : validate_brackets s = [] := by
      cases hvb2 : validate_brackets s with
      | nil => rfl
      | cons a t => rw [hvb2] at hb; simp at hb
    rw [if_neg hb, hvb]
    rfl

/-- Claim C2 (counterexample): a top-level function declaration whose body
brace is never closed parses with ZERO errors — the function-body loop of
`parse_function` stops at `Eof` without emitting any `SyntaxError`,
contradicting the claim that one error is emitted for this case. -/
theorem claim2_counterexample :
    parse_dol "fun f() \x7b" = some ([DolNode.Function "f" [] none "" false 1], [], []) := by
  rfl

/-- Claim C2 (amended): when `parse_body` (spirit/gene block bodies) reaches
`Eof` with the block still open it emits exactly one "Unexpected end of
file, unclosed block" `SyntaxError` and stops; the function-body loop, by
contrast, stops consuming at `Eof` WITHOUT emitting an error, so a
top-level `fun f() \x7b` yields zero errors while `gene G \x7b` yields
exactly one. -/
theorem claim2_amended :
    (∀ fuel depth st acc, 0 < fuel → ¬depth = 0 → (skip_newlines st).tok = Token.Eof →
      parse_body_loop fuel depth st acc =
        some (push_error "Unexpected end of file, unclosed block" "SyntaxError"
          (skip_newlines st), acc))
    ∧ parse_dol "gene G \x7b"
        = some ([DolNode.Gene "G" [] 1],
            [⟨"Unexpected end of file, unclosed block", 1, 9, "SyntaxError"⟩], [])
    ∧ parse_dol "fun f() \x7b" = some ([DolNode.Function "f" [] none "" false 1], [], []) := by
  refine ⟨?_, by rfl, by rfl⟩
  intro fuel depth st acc hf hd he
  cases fuel with
  | zero => omega
  | succ n =>
    rw [parse_body_loop, if_neg hd]
    dsimp only
    rw [he]

theorem claim2_amended_witness :
    0 < 1 ∧ ¬(1 : Nat) = 0 ∧ (skip_newlines (init_state "")).tok = Token.Eof ∧
    parse_body_loop 1 1 (init_state "") [] =
      some (push_error "Unexpected end of file, unclosed block" "SyntaxError"
        (skip_newlines (init_state "")), []) :=
  ⟨by decide, by decide, by rfl,
   claim2_amended.1 1 1 (init_state "") [] (by decide) (by decide) (by rfl)⟩

/-- Claim C3: the bracket validator emits one "Unclosed brace" error per
net-unclosed `\x7b` outside string literals and one "Unexpected closing
brace" error per unmatched `\x7d`; concretely `validate_brackets "\x7b\x7d"`
yields no errors, `validate_brackets "\x7b"` exactly one unclosed-brace
error at the position of the `\x7b`, and `validate_brackets "\x7d"` exactly
one unexpected-closing-brace error at column 1. -/
theorem claim3_bracket_soundness :
    (∀ s, count_msg msg_unclosed_brace (validate_brackets s) = net_unclosed s)
    ∧ (∀ s, count_msg msg_unexpected_brace (validate_brackets s) = net_unexpected s)
    ∧ validate_brackets "\x7b\x7d" = []
    ∧ validate_brackets "\x7b" = [⟨msg_unclosed_brace, 1, 1, "BracketError"⟩]
    ∧ validate_brackets "\x7d" = [⟨msg_unexpected_brace, 1, 1, "BracketError"⟩] :=
  ⟨validate_brackets_unclosed_count, validate_brackets_unexpected_count,
   by rfl, by rfl, by rfl⟩

/-- Claim C4: parsing `gene Counter \x7b has value: Int = 0 fun get() -> Int
\x7b return value \x7d \x7d` yields exactly one `Gene` node named "Counter"
whose body holds exactly one `Field` ("value", "Int", default `some "0"`)
and one `Function` ("get", not effectful, return type `some "Int"`), with
no errors or warnings. -/
theorem claim4_gene_counter_roundtrip :
    parse_dol "gene Counter \x7b has value: Int = 0 fun get() -> Int \x7b return value \x7d \x7d"
      = some ([DolNode.Gene "Counter"
          [DolNode.Field "value" "Int" (some "0") 1,
           DolNode.Function "get" [] (some "Int") "returnvalue" false 1] 1], [], []) := by
  rfl

/-- Claim C5: parsing `gene Bad \x7b garbage tokens here fun ok() \x7b\x7d
\x7d` yields the `Gene` node containing the `Function` named "ok" with zero
errors and zero warnings — unrecognized tokens inside a block body are
skipped silently. -/
theorem claim5_silent_body_recovery :
    parse_dol "gene Bad \x7b garbage tokens here fun ok() \x7b\x7d \x7d"
      = some ([DolNode.Gene "Bad" [DolNode.Function "ok" [] none "" false 1] 1], [], []) := by
  rfl

/-- Claim C6: parsing `gene \x7b \x7d` yields exactly one "Expected
identifier" `SyntaxError` (at the `\x7b`, line 1 column 6) and no `Gene`
node — a declaration missing its required name aborts only that
declaration. -/
theorem claim6_missing_name :
    parse_dol "gene \x7b \x7d"
      = some ([], [⟨"Expected identifier", 1, 6, "SyntaxError"⟩], []) := by
  rfl

/-- Claim C7 (counterexample): the word "fn" — listed by the claim as a
keyword — lexes as an `Identifier` token, and the word "trait" — absent
from the claim's keyword set — lexes as the keyword token `Trait`. -/
theorem claim7_counterexample :
    (next_token ⟨"fn".data, 1, 1⟩).1 = Token.Identifier "fn"
    ∧ is_keyword_token (next_token ⟨"fn".data, 1, 1⟩).1 = false
    ∧ (next_token ⟨"trait".data, 1, 1⟩).1 = Token.Trait
    ∧ is_keyword_token (next_token ⟨"trait".data, 1, 1⟩).1 = true :=
  ⟨by rfl, by rfl, by rfl, by rfl⟩

/-- Claim C7 (amended): the lexer classifies an alphanumeric/underscore word
as a keyword token exactly when it is one of `spirit`, `gene`, `trait`,
`fun`, `sex`, `has`, `let`, `const`, `mut`, `if`, `else`, `match`,
`return`, `exegesis`, `constraint`, `pub`, `self`; every other word —
including `fn`, `state`, and `effect` — lexes as an `Identifier` token. -/
theorem claim7_amended :
    (∀ (w : String) (c : Char) (cs : List Char), w.data = c :: cs →
      c.isAlpha = true ∨ c = '_' → (∀ ch ∈ cs, ch.isAlphanum = true ∨ ch = '_') →
      (next_token ⟨w.data, 1, 1⟩).1 = keyword_token w)
    ∧ (∀ s : String, is_keyword_token (keyword_token s) = true ↔ s ∈ dol_keywords)
    ∧ (∀ s : String, s ∉ dol_keywords → keyword_token s = Token.Identifier s)
    ∧ keyword_token "fn" = Token.Identifier "fn"
    ∧ keyword_token "state" = Token.Identifier "state"
    ∧ keyword_token "effect" = Token.Identifier "effect" :=
  ⟨next_token_word, fun s => (keyword_token_spec s).1, fun s => (keyword_token_spec s).2,
   by rfl, by rfl, by rfl⟩

theorem claim7_amended_witness :
    ("fun" : String).data = 'f' :: ['u', 'n'] ∧ ('f'.isAlpha = true ∨ 'f' = '_') ∧
    (∀ ch ∈ ['u', 'n'], ch.isAlphanum = true ∨ ch = '_') ∧
    (next_token ⟨("fun" : String).data, 1, 1⟩).1 = keyword_token "fun" :=
  ⟨rfl, by decide, by decide,
   claim7_amended.1 "fun" 'f' ['u', 'n'] rfl (by decide) (by decide)⟩

/-- Claim C8: for every finite input string, `compile_dol` and
`validate_dol` terminate and return a well-formed result (the fuel bound
chosen from the input length is always sufficient), with `success` true
exactly when the error list is empty. -/
theorem claim8_compile_validate_total (s : String) :
    (∃ r, compile_dol s = some r ∧ (r.success = true ↔ r.errors = []))
    ∧ ∃ b, validate_dol s = some b := by
  obtain ⟨rp, hr⟩ := parse_dol_total s
  constructor
  · rw [compile_dol, hr]
    refine ⟨_, rfl, ?_⟩
    exact isEmpty_iff_nil _
  · by_cases hb : (validate_brackets s).isEmpty = false
    · exact ⟨false, by rw [validate_dol, if_pos hb]⟩
    · have hv : validate_dol s = some rp.2.1.isEmpty := by
        rw [validate_dol, if_neg hb, hr]
        rfl
      exact ⟨_, hv⟩

/-- Claim C9: in the top-level loop, only an `Identifier` token produces the
unexpected-identifier warning; any other token not handled by the top-level
dispatch is skipped producing no AST node, no error, and no warning. -/
theorem claim9_toplevel_skip (fuel : Nat) (st : PState) (acc : List DolNode)
    (hnd : top_level_dispatched (skip_newlines st).tok = false) :
    ((∀ name, ¬(skip_newlines st).tok = Token.Identifier name) →
      parse_loop (fuel + 1) st acc = parse_loop fuel (advance (skip_newlines st)) acc
      ∧ (advance (skip_newlines st)).errors = st.errors
      ∧ (advance (skip_newlines st)).warnings = st.warnings)
    ∧ (∀ name, (skip_newlines st).tok = Token.Identifier name →
      parse_loop (fuel + 1) st acc =
        parse_loop fuel (advance (push_warning
          ("Warning: Unexpected identifier \x27" ++ name ++ "\x27 at line "
            ++ Nat.repr (skip_newlines st).tokLine) (skip_newlines st))) acc
      ∧ (push_warning ("Warning: Unexpected identifier \x27" ++ name ++ "\x27 at line "
            ++ Nat.repr (skip_newlines st).tokLine) (skip_newlines st)).errors = st.errors) := by
  constructor
  · intro hid
    refine ⟨?_, ?_, ?_⟩
    · rw [parse_loop]
      dsimp only
      cases htok : (skip_newlines st).tok <;>
        first
          | rfl
          | exact absurd htok (hid _)
          | (rw [htok] at hnd; exact absurd hnd (by simp [top_level_dispatched]))
    · rw [advance_errors, skip_newlines_errors]
    · rw [advance_warnings, skip_newlines_warnings]
  · intro name hid
    constructor
    · rw [parse_loop]
      dsimp only
      rw [hid]
    · rw [push_warning_errors, skip_newlines_errors]

theorem claim9_witness :
    top_level_dispatched (skip_newlines (init_state "trait")).tok = false ∧
    parse_loop 1 (init_state "trait") [] =
      parse_loop 0 (advance (skip_newlines (init_state "trait"))) [] :=
  ⟨by rfl,
   ((claim9_toplevel_skip 0 (init_state "trait") [] (by rfl)).1
     (fun name hc => by
       rw [show (skip_newlines (init_state "trait")).tok = Token.Trait from rfl] at hc
       exact Token.noConfusion hc)).1⟩

/-- Claim C10: when a function declaration, a named constraint, or an
exegesis keyword is not followed by an opening brace, the parser still
produces the node with an empty body/content string and records no error:
the body readers return `""` without consuming or erroring, and concretely
`fun f()`, `gene G \x7b constraint c \x7d`, and `exegesis` all parse
without errors. -/
theorem claim10_optional_bodies :
    (∀ st : PState, ¬st.tok = Token.OpenBrace → read_fn_body st = some ("", st))
    ∧ (∀ st : PState, ¬st.tok = Token.OpenBrace → read_constraint_body st = some ("", st))
    ∧ (∀ st : PState, ¬st.tok = Token.OpenBrace → read_exegesis_content st = some ("", st))
    ∧ parse_dol "fun f()" = some ([DolNode.Function "f" [] none "" false 1], [], [])
    ∧ parse_dol "gene G \x7b constraint c \x7d"
        = some ([DolNode.Gene "G" [DolNode.Constraint "c" "" 1] 1], [], [])
    ∧ parse_dol "exegesis" = some ([DolNode.Exegesis "" 1], [], []) := by
  refine ⟨?_, ?_, ?_, by rfl, by rfl, by rfl⟩
  · intro st h
    rw [read_fn_body, if_neg h]
  · intro st h
    rw [read_constraint_body, if_neg h]
  · intro st h
    rw [read_exegesis_content, if_neg h]

theorem claim10_witness :
    ¬(init_state "x").tok = Token.OpenBrace ∧
    read_fn_body (init_state "x") = some ("", init_state "x") :=
  ⟨by decide, claim10_optional_bodies.1 (init_state "x") (by decide)⟩
